import Mathlib

/-!
# Verification of the cloudvts storage accounting / trash / share-link engine

Shallow embedding of the quota, soft-delete (trash) and share-link
subsystem of the `storage_app` Django application
(`storage_app/models.py`, `storage_app/views.py`).

Modelling conventions:

* Database tables are Lean lists of records; a Django `QuerySet` that a
  view iterates is the corresponding `List.filter` snapshot, taken at
  the point the Python code evaluates the queryset.
* Primary keys are `Nat` (the source uses UUIDs; only freshness and
  equality of keys matter to the verified properties).
* `BigIntegerField` columns (`size`, `used_storage`, plan limits) are
  `Int`: they are signed 64-bit columns and the interesting behaviour
  includes negative values; no arithmetic here approaches 2^63, so
  overflow is not modelled.
* Timestamps are `Nat` measured in days (`timezone.now() + timedelta(days=30)`
  becomes `now + 30`); share-link expiry instants are `Int`.
* The object store (Backblaze B2 / S3) is the set of file ids whose
  backing blob exists (`DB.blobs`); the source keys blobs by the
  per-file path `user_<owner>/<name>`, one path per `File` row, so the
  file id is a faithful key for it.
* Django `on_delete` behaviour is modelled explicitly where a row is
  deleted: `File.folder` is CASCADE, `Folder.parent_folder` is
  SET_NULL, `Trash.file`/`Trash.folder` are CASCADE,
  `Trash.original_folder` is SET_NULL (`storage_app/models.py`).
* Each view runs without a transaction (Django autocommit): an
  exception mid-view keeps the effects of the statements already
  executed.  Operations therefore return the state reached so far
  together with a result, and a raised exception is an error result.
* Password hashing (`make_password`/`check_password`) is abstracted by
  storing the password itself as the hash; the only property the
  verified claims use is that checking `p` against the stored hash of
  `p'` succeeds exactly when `p = p'`.
* Fields that no verified claim touches (names of files, starred/public
  flags, stripe ids, timestamps of trash rows, ...) are omitted, except
  `FolderRec.name` which the folder-creation uniqueness constraint needs.
-/

/-- `StoragePlan` (models.py): only the two byte limits are claim-relevant. -/
structure StoragePlan where
  max_storage_size : Int
  max_file_size : Int
deriving DecidableEq, Repr

/-- `UserProfile` (models.py): `storage_plan` is a nullable FK (SET_NULL
on plan deletion), `used_storage` a signed big-integer counter. -/
structure UserProfile where
  user : Nat
  storage_plan : Option StoragePlan
  used_storage : Int
deriving DecidableEq, Repr

/-- `File` row (models.py), claim-relevant columns. -/
structure FileRec where
  id : Nat
  size : Int
  owner : Nat
  folder : Option Nat
  is_deleted : Bool
deriving DecidableEq, Repr

/-- `Folder` row (models.py). -/
structure FolderRec where
  id : Nat
  name : String
  owner : Nat
  parent_folder : Option Nat
  is_deleted : Bool
  deleted_at : Option Nat
deriving DecidableEq, Repr

/-- `Trash` row (models.py): exactly one of `file`/`folder` is meant to
be set; `original_folder` records the parent at deletion time. -/
structure TrashRec where
  user : Nat
  file : Option Nat
  folder : Option Nat
  original_folder : Option Nat
  scheduled_permanent_deletion : Nat
deriving DecidableEq, Repr

/-- The relational state of the engine plus the object store. -/
structure DB where
  files : List FileRec
  folders : List FolderRec
  trash : List TrashRec
  profiles : List UserProfile
  blobs : List Nat
deriving DecidableEq, Repr

/-- `UserProfile.objects.get(user=u)` (raises on absence). -/
def findProfile (st : DB) (u : Nat) : Option UserProfile :=
  st.profiles.find? (fun p => p.user == u)

/-- `get_object_or_404(File, id=fid, owner=u)`. -/
def findOwnedFile (st : DB) (u fid : Nat) : Option FileRec :=
  st.files.find? (fun f => f.id == fid && f.owner == u)

/-- `get_object_or_404(File, id=fid, owner=u, is_deleted=del)`. -/
def findOwnedFileDel (st : DB) (u fid : Nat) (del : Bool) : Option FileRec :=
  st.files.find? (fun f => f.id == fid && f.owner == u && f.is_deleted == del)

/-- `get_object_or_404(Folder, id=fid, owner=u, is_deleted=del)`. -/
def findOwnedFolderDel (st : DB) (u fid : Nat) (del : Bool) : Option FolderRec :=
  st.folders.find? (fun f => f.id == fid && f.owner == u && f.is_deleted == del)

/-- `get_object_or_404(Trash, ...)`: Django `get` succeeds only when the
filter matches exactly one row. -/
def getUniqueTrash (st : DB) (p : TrashRec → Bool) : Option TrashRec :=
  match st.trash.filter p with
  | [t] => some t
  | _ => none

/-- Overwrite the profile row of user `u` (a `profile.save()`). -/
def updateProfile (u : Nat) (g : UserProfile → UserProfile) (st : DB) : DB :=
  { st with profiles := st.profiles.map (fun p => if p.user == u then g p else p) }

/-- `file.is_deleted = b; file.save()` for the file row `fid`. -/
def setFileDeleted (fid : Nat) (b : Bool) (st : DB) : DB :=
  { st with files := st.files.map (fun f => if f.id == fid then { f with is_deleted := b } else f) }

/-- `folder.is_deleted = b; folder.deleted_at = d; folder.save()`. -/
def setFolderDeleted (fid : Nat) (b : Bool) (d : Option Nat) (st : DB) : DB :=
  { st with folders := st.folders.map (fun f =>
      if f.id == fid then { f with is_deleted := b, deleted_at := d } else f) }

/-- `Trash.objects.create(...)` appends a row. -/
def addTrash (t : TrashRec) (st : DB) : DB :=
  { st with trash := st.trash ++ [t] }

/-- `trash_item.delete()`: removes that one row (no-op if already gone). -/
def eraseTrash (t : TrashRec) (st : DB) : DB :=
  { st with trash := st.trash.erase t }

/-- `Trash.objects.filter(p).delete()`: removes every matching row. -/
def removeTrashWhere (p : TrashRec → Bool) (st : DB) : DB :=
  { st with trash := st.trash.filter (fun t => !(p t)) }

/-- `file_obj.file.delete(save=False)`: removes the backing blob only. -/
def deleteBlob (fid : Nat) (st : DB) : DB :=
  { st with blobs := st.blobs.filter (fun b => b != fid) }

/-- `file_obj.delete()`: removes the `File` row; Django cascades the
deletion to `Trash` rows referencing it (`Trash.file` is CASCADE). -/
def deleteFileRow (fid : Nat) (st : DB) : DB :=
  { st with
      files := st.files.filter (fun f => f.id != fid),
      trash := st.trash.filter (fun t => t.file != some fid) }

/-- `folder.delete()` with Django cascade semantics:
`File.folder` is CASCADE (rows of files directly inside die, their blobs
do not), `Folder.parent_folder` is SET_NULL (child folders are kept and
re-rooted), `Trash.file`/`Trash.folder` are CASCADE,
`Trash.original_folder` is SET_NULL. -/
def deleteFolderRow (fid : Nat) (st : DB) : DB :=
  let deadFiles := (st.files.filter (fun f => f.folder == some fid)).map (fun f => f.id)
  { st with
      folders := (st.folders.filter (fun f => f.id != fid)).map (fun f =>
        if f.parent_folder == some fid then { f with parent_folder := none } else f),
      files := st.files.filter (fun f => f.folder != some fid),
      trash := (st.trash.filter (fun t =>
          t.folder != some fid && !(match t.file with
            | some x => deadFiles.contains x
            | none => false))).map (fun t =>
        if t.original_folder == some fid then { t with original_folder := none } else t) }

/-- Outcome of a view call: `ok`/`okCount` are the success JSON
responses, the `err*` constructors are the error responses and the
uncaught-exception (HTTP 500) paths. -/
inductive OpResult where
  | ok
  | okCount (n : Nat)
  | errNotFound
  | errFileSize
  | errStorage
  | errNoProfile
  | errNullPlan
  | errDuplicate
  | errAbort
deriving DecidableEq, Repr

/-- `UserProfile.get_storage_usage_percent` (models.py lines 72-75):
returns `0` when `storage_plan` is null, otherwise the percentage.
(The Python float division is modelled over `ℚ`; no claim depends on
rounding.) -/
def UserProfile.get_storage_usage_percent (p : UserProfile) : ℚ :=
  match p.storage_plan with
  | some plan => ((p.used_storage : ℚ) / (plan.max_storage_size : ℚ)) * 100
  | none => 0

/-- `UserProfile.can_upload_file` (models.py lines 77-85). -/
def UserProfile.can_upload_file (p : UserProfile) (file_size : Int) : Bool :=
  match p.storage_plan with
  | none => false
  | some plan =>
      if p.used_storage + file_size > plan.max_storage_size then false
      else true

/-- `upload_file` (views.py lines 306-342).  The upload form carries no
folder, so a new file lands at the root (`folder=None`).  A null
`storage_plan` makes `user_profile.storage_plan.max_file_size` raise
`AttributeError` before any mutation (`errNullPlan`). -/
def upload_file (u fid : Nat) (size : Int) (st : DB) : DB × OpResult :=
  match findProfile st u with
  | none => (st, .errNoProfile)
  | some prof =>
    match prof.storage_plan with
    | none => (st, .errNullPlan)
    | some plan =>
      if size > plan.max_file_size then (st, .errFileSize)
      else if prof.used_storage + size > plan.max_storage_size then (st, .errStorage)
      else
        let st := { st with
          files := st.files ++ [{ id := fid, size := size, owner := u,
                                  folder := none, is_deleted := false }],
          blobs := st.blobs ++ [fid] }
        (updateProfile u (fun p => { p with used_storage := p.used_storage + size }) st, .ok)

/-- `create_folder` (views.py lines 539-550); the
`unique_together = ['name', 'owner', 'parent_folder']` constraint makes
the insert fail on a duplicate. -/
def create_folder (u fid : Nat) (name : String) (parent : Option Nat) (st : DB) : DB × OpResult :=
  if st.folders.any (fun f => f.name == name && f.owner == u && f.parent_folder == parent) then
    (st, .errDuplicate)
  else
    let fl : FolderRec := { id := fid, name := name, owner := u, parent_folder := parent,
                            is_deleted := false, deleted_at := none }
    ({ st with folders := st.folders ++ [fl] }, .ok)

/-- `move_file` (views.py lines 553-608): re-parent a file (no quota
effect); moving into a folder requires the folder to be owned. -/
def move_file (u fid : Nat) (dest : Option Nat) (st : DB) : DB × OpResult :=
  match findOwnedFile st u fid with
  | none => (st, .errNotFound)
  | some _ =>
    match dest with
    | some d =>
      match st.folders.find? (fun f => f.id == d && f.owner == u) with
      | none => (st, .errNotFound)
      | some _ =>
        ({ st with files := st.files.map (fun f =>
            if f.id == fid then { f with folder := some d } else f) }, .ok)
    | none =>
      ({ st with files := st.files.map (fun f =>
          if f.id == fid then { f with folder := none } else f) }, .ok)

/-- `move_to_trash` (views.py lines 864-889): create the `Trash` row
(with `original_folder` = the file's current parent), then flip
`is_deleted`.  Note: the lookup does not filter on `is_deleted`. -/
def move_to_trash (u fid now : Nat) (st : DB) : DB × OpResult :=
  match findOwnedFile st u fid with
  | none => (st, .errNotFound)
  | some f =>
    let t : TrashRec := { user := u, file := some fid, folder := none,
                          original_folder := f.folder, scheduled_permanent_deletion := now + 30 }
    (setFileDeleted fid true (addTrash t st), .ok)

/-- `restore_file` (views.py lines 891-911). -/
def restore_file (u fid : Nat) (st : DB) : DB × OpResult :=
  match findOwnedFileDel st u fid true with
  | none => (st, .errNotFound)
  | some _ =>
    match getUniqueTrash st (fun t => t.file == some fid && t.user == u) with
    | none => (st, .errNotFound)
    | some t =>
      let st := setFileDeleted fid false st
      (eraseTrash t st, .ok)

/-- The first mutation step of `permanent_delete_file` (views.py lines
921-924): `used_storage -= size; save()`. -/
def pdfDecrement (u : Nat) (size : Int) (st : DB) : DB :=
  updateProfile u (fun p => { p with used_storage := p.used_storage - size }) st

/-- The four mutation statements of `permanent_delete_file` (views.py
lines 921-928), in the order the source executes them:
decrement the quota counter, delete the blob, delete the `Trash` row,
delete the `File` row. -/
def permanent_delete_file_steps (u fid : Nat) (size : Int) (t : TrashRec) : List (DB → DB) :=
  [pdfDecrement u size, deleteBlob fid, eraseTrash t, deleteFileRow fid]

/-- Run a prefix of a step list (autocommit: the steps already executed
stay committed if a later one raises). -/
def runSteps (steps : List (DB → DB)) (st : DB) : DB :=
  steps.foldl (fun s g => g s) st

/-- `permanent_delete_file` (views.py lines 913-938). -/
def permanent_delete_file (u fid : Nat) (st : DB) : DB × OpResult :=
  match findOwnedFileDel st u fid true with
  | none => (st, .errNotFound)
  | some f =>
    match getUniqueTrash st (fun t => t.file == some fid && t.user == u) with
    | none => (st, .errNotFound)
    | some t =>
      match findProfile st u with
      | none => (st, .errNoProfile)
      | some _ =>
        (runSteps (permanent_delete_file_steps u fid f.size t) st, .ok)

/-- One loop iteration of `empty_trash` (views.py lines 948-953) that
reached the mutation statements: blob delete, `Trash` row delete,
`File` row delete (the quota counter is never touched). -/
def purgeTrashItem (fid : Nat) (t : TrashRec) (st : DB) : DB :=
  deleteFileRow fid (eraseTrash t (deleteBlob fid st))

/-- The `for trash_item in trash_items` loop of `empty_trash`.
`trash_item.file` is `None` for a folder trash row, so
`file_obj.file.delete(...)` raises `AttributeError`; a dangling file
reference raises `DoesNotExist`.  Either exception aborts the whole
view (there is no per-item handler), keeping the effects of the
iterations already done. -/
def empty_trash_go (items : List TrashRec) (count : Nat) (st : DB) : DB × OpResult :=
  match items with
  | [] => (st, .okCount count)
  | t :: rest =>
    match t.file with
    | none => (st, .errAbort)
    | some fid =>
      match st.files.find? (fun f => f.id == fid) with
      | none => (st, .errAbort)
      | some _ => empty_trash_go rest (count + 1) (purgeTrashItem fid t st)

/-- `empty_trash` (views.py lines 940-964): iterate a snapshot of the
user's trash rows.  `Trash.Meta.ordering = ['-deleted_at']` (models.py
lines 216-217) makes the queryset iterate newest-first; `deleted_at` is
`auto_now_add`, so that is the reverse of creation order, i.e. the
reverse of the model's trash list. -/
def empty_trash (u : Nat) (st : DB) : DB × OpResult :=
  empty_trash_go ((st.trash.filter (fun t => t.user == u)).reverse) 0 st

/-- Sum of `size` over the non-deleted files of `u`
(`files.aggregate(Sum('size'))` over `is_deleted=False`). -/
def sumActiveSizes (st : DB) (u : Nat) : Int :=
  ((st.files.filter (fun f => f.owner == u && !f.is_deleted)).map (fun f => f.size)).sum

/-- The `used_storage` recompute the `dashboard` view performs as a side
effect (views.py lines 207-213): overwrite the counter with the sum of
sizes of the user's *non-deleted* files. -/
def dashboard (u : Nat) (st : DB) : DB :=
  match findProfile st u with
  | none => st
  | some _ => updateProfile u (fun p => { p with used_storage := sumActiveSizes st u }) st

/-- The `Trash` row the folder cascade creates for a folder
(`Trash.objects.create(user=..., folder=..., original_folder=..., ...)`). -/
def folderTrashRec (u now i : Nat) (p : Option Nat) : TrashRec :=
  { user := u, file := none, folder := some i, original_folder := p,
    scheduled_permanent_deletion := now + 30 }

/-- The `Trash` row the folder cascade creates for a file inside
folder `i`. -/
def fileTrashRec (u now x i : Nat) : TrashRec :=
  { user := u, file := some x, folder := none, original_folder := some i,
    scheduled_permanent_deletion := now + 30 }

/-- The `for file_obj in File.objects.filter(folder=fid, is_deleted=False)`
loops of `move_folder_to_trash` (views.py lines 1674-1686 and
1705-1716): snapshot the non-deleted files of the folder, then for each
one flip `is_deleted` and create its `Trash` row with
`original_folder` = the containing folder. -/
def trashFilesIn (u now fid : Nat) (st : DB) : DB :=
  let fs := (st.files.filter (fun f => f.folder == some fid && !f.is_deleted)).map (fun f => f.id)
  fs.foldl (fun acc x => addTrash (fileTrashRec u now x fid) (setFileDeleted x true acc)) st

/-- `delete_subfolders_recursive` (views.py lines 1689-1719): snapshot
the non-deleted child folders of `parent`; for each one mark it
deleted, create its `Trash` row with `original_folder` = `parent`,
trash its files, and recurse into it.

The Python recursion needs no fuel: every recursive call follows the
marking of a previously non-deleted folder, so its depth is bounded by
the number of folder rows.  The embedding passes that bound explicitly
as `fuel` (the caller supplies `st.folders.length`, which the cascade
never changes); `trash_cascade_eq` below proves the fuel sufficient on
every state satisfying `treeOk`. -/
def delete_subfolders_recursive (u now : Nat) : Nat → Nat → DB → DB
  | 0, _, st => st
  | fuel + 1, parent, st =>
    let subs := (st.folders.filter (fun f =>
      f.parent_folder == some parent && !f.is_deleted)).map (fun f => f.id)
    subs.foldl (fun acc sub =>
      let acc := setFolderDeleted sub true (some now) acc
      let acc := addTrash (folderTrashRec u now sub (some parent)) acc
      let acc := trashFilesIn u now sub acc
      delete_subfolders_recursive u now fuel sub acc) st

/-- `move_folder_to_trash` (views.py lines 1653-1731): create the
folder's own `Trash` row (`original_folder` = its parent), mark it
deleted, trash its direct files, then run the recursive cascade. -/
def move_folder_to_trash (u fid now : Nat) (st : DB) : DB × OpResult :=
  match findOwnedFolderDel st u fid false with
  | none => (st, .errNotFound)
  | some fl =>
    let st := addTrash (folderTrashRec u now fid fl.parent_folder) st
    let st := setFolderDeleted fid true (some now) st
    let st := trashFilesIn u now fid st
    (delete_subfolders_recursive u now st.folders.length fid st, .ok)

/-- The `for file_obj in File.objects.filter(folder=fid, is_deleted=True)`
loops of `restore_folder` (views.py lines 1747-1755 and 1770-1777):
flip each such file back and delete every `Trash` row referencing it. -/
def restoreFilesIn (u fid : Nat) (st : DB) : DB :=
  let fs := (st.files.filter (fun f => f.folder == some fid && f.is_deleted)).map (fun f => f.id)
  fs.foldl (fun acc x =>
    removeTrashWhere (fun t => t.file == some x && t.user == u) (setFileDeleted x false acc)) st

/-- `restore_subfolders_recursive` (views.py lines 1758-1780): snapshot
the *deleted* child folders of `parent`; for each one flip it back,
delete its `Trash` rows, restore its files, recurse.  Fuel as in
`delete_subfolders_recursive`. -/
def restore_subfolders_recursive (u : Nat) : Nat → Nat → DB → DB
  | 0, _, st => st
  | fuel + 1, parent, st =>
    let subs := (st.folders.filter (fun f =>
      f.parent_folder == some parent && f.is_deleted)).map (fun f => f.id)
    subs.foldl (fun acc sub =>
      let acc := setFolderDeleted sub false none acc
      let acc := removeTrashWhere (fun t => t.folder == some sub && t.user == u) acc
      let acc := restoreFilesIn u sub acc
      restore_subfolders_recursive u fuel sub acc) st

/-- `restore_folder` (views.py lines 1733-1795): flip the folder back,
restore its files, run the recursive restore, and finally delete the
folder's own `Trash` row. -/
def restore_folder (u fid : Nat) (st : DB) : DB × OpResult :=
  match findOwnedFolderDel st u fid true with
  | none => (st, .errNotFound)
  | some _ =>
    match getUniqueTrash st (fun t => t.folder == some fid && t.user == u) with
    | none => (st, .errNotFound)
    | some t =>
      let st := setFolderDeleted fid false none st
      let st := restoreFilesIn u fid st
      let st := restore_subfolders_recursive u st.folders.length fid st
      (eraseTrash t st, .ok)

/-- `permanent_delete_folder` (views.py lines 1797-1823): delete the
blob and row of each *direct* file, delete each *direct* subfolder row
(Django cascade/SET_NULL semantics, `deleteFolderRow`), delete the
folder's `Trash` row, delete the folder row.  There is no recursion
into deeper levels and no `used_storage` decrement in the source. -/
def permanent_delete_folder (u fid : Nat) (st : DB) : DB × OpResult :=
  match findOwnedFolderDel st u fid true with
  | none => (st, .errNotFound)
  | some _ =>
    match getUniqueTrash st (fun t => t.folder == some fid && t.user == u) with
    | none => (st, .errNotFound)
    | some t =>
      let directFiles := (st.files.filter (fun f => f.folder == some fid)).map (fun f => f.id)
      let st := directFiles.foldl (fun acc x => deleteFileRow x (deleteBlob x acc)) st
      let subs := (st.folders.filter (fun f => f.parent_folder == some fid)).map (fun f => f.id)
      let st := subs.foldl (fun acc s => deleteFolderRow s acc) st
      let st := eraseTrash t st
      (deleteFolderRow fid st, .ok)

/-- `ShareLink` row (models.py lines 278-319). -/
structure ShareLink where
  token : Nat
  file : Option Nat
  folder : Option Nat
  expires_at : Option Int
  is_active : Bool
  require_password : Bool
  password_hash : Option String
deriving DecidableEq, Repr

/-- `ShareLink.has_password` (models.py lines 317-319). -/
def ShareLink.has_password (l : ShareLink) : Bool :=
  l.require_password && l.password_hash.isSome

/-- `ShareLink.check_password` (models.py lines 310-315); the one-way
hash is abstracted (see the header comment). -/
def ShareLink.chk_password (l : ShareLink) (password : String) : Bool :=
  match l.password_hash with
  | none => false
  | some h => password == h

/-- The per-visitor Django session store: each session id owns its own
dictionary, modelled as the list of tokens `t` for which the key
`share_verified_<t>` has been set to `True`. -/
abbrev SessionStore : Type := List (Nat × List Nat)

/-- `request.session.get(f'share_verified_<token>')` for session `sid`. -/
def sessionVerified (ss : SessionStore) (sid token : Nat) : Bool :=
  match ss.find? (fun e => e.fst == sid) with
  | none => false
  | some e => e.snd.contains token

/-- `request.session[f'share_verified_<token>'] = True` for session `sid`. -/
def setSessionVerified (ss : SessionStore) (sid token : Nat) : SessionStore :=
  match ss.find? (fun e => e.fst == sid) with
  | none => ss ++ [(sid, [token])]
  | some _ => ss.map (fun e => if e.fst == sid then (e.fst, e.snd ++ [token]) else e)

/-- Outcome of resolving a share token (`share_file`, views.py lines
692-764). -/
inductive ResolveRes where
  | notFound
  | expired
  | passwordRequired
  | okAccess
deriving DecidableEq, Repr

/-- The access-control part of `share_file` (views.py lines 692-711):
look the token up among *active* links (`get_object_or_404(ShareLink,
token=token, is_active=True)`), then the computed expiry check, then
the per-session password gate.  The view performs no `save()` on any
path, so the link table and the session store are returned unchanged. -/
def share_file (links : List ShareLink) (ss : SessionStore) (sid token : Nat)
    (now : Int) : ResolveRes × List ShareLink × SessionStore :=
  match links.find? (fun l => l.token == token && l.is_active) with
  | none => (.notFound, links, ss)
  | some l =>
    let expired := match l.expires_at with
      | some e => decide (e < now)
      | none => false
    if expired then (.expired, links, ss)
    else if l.has_password && !(sessionVerified ss sid token) then
      (.passwordRequired, links, ss)
    else (.okAccess, links, ss)

/-- Outcome of `verify_share_password`. -/
inductive VerifyRes where
  | okVerified
  | errNotFound
  | errNotProtected
  | errPasswordRequired
  | errInvalidPassword
deriving DecidableEq, Repr

/-- `verify_share_password` (views.py lines 1825-1848): on a correct
password it sets the `share_verified_<token>` key *in the requesting
session only*; every other path leaves the session store unchanged. -/
def verify_share_password (links : List ShareLink) (ss : SessionStore) (sid token : Nat)
    (password : String) : VerifyRes × SessionStore :=
  match links.find? (fun l => l.token == token && l.is_active) with
  | none => (.errNotFound, ss)
  | some l =>
    if !l.has_password then (.errNotProtected, ss)
    else if password == "" then (.errPasswordRequired, ss)
    else if l.chk_password password then (.okVerified, setSessionVerified ss sid token)
    else (.errInvalidPassword, ss)

/-- One request by user `u` against the engine, restricted to the
operations the quota claims quantify over (create / move / trash /
restore / purge / empty-trash, plus the `dashboard` read whose quota
recompute is a documented side effect of the source). -/
inductive Op where
  | upload (fid : Nat) (size : Int)
  | createFolder (fid : Nat) (name : String) (parent : Option Nat)
  | moveFile (fid : Nat) (dest : Option Nat)
  | trashFile (fid : Nat)
  | restoreFile (fid : Nat)
  | purgeFile (fid : Nat)
  | trashFolder (fid : Nat)
  | restoreFolder (fid : Nat)
  | purgeFolder (fid : Nat)
  | emptyTrash
  | dashboard
deriving DecidableEq, Repr

/-- Dispatch one operation (the JSON result is dropped; error paths
leave exactly the state the partially-executed view left behind). -/
def applyOp (u now : Nat) (st : DB) : Op → DB
  | .upload fid size => (upload_file u fid size st).fst
  | .createFolder fid name parent => (create_folder u fid name parent st).fst
  | .moveFile fid dest => (move_file u fid dest st).fst
  | .trashFile fid => (move_to_trash u fid now st).fst
  | .restoreFile fid => (restore_file u fid st).fst
  | .purgeFile fid => (permanent_delete_file u fid st).fst
  | .trashFolder fid => (move_folder_to_trash u fid now st).fst
  | .restoreFolder fid => (restore_folder u fid st).fst
  | .purgeFolder fid => (permanent_delete_folder u fid st).fst
  | .emptyTrash => (empty_trash u st).fst
  | .dashboard => dashboard u st

/-- Run a sequence of requests of user `u`. -/
def runOps (u now : Nat) (ops : List Op) (st : DB) : DB :=
  ops.foldl (applyOp u now) st

/-- Sum of `size` over every `File` row of `u` that still exists (not
yet purged), soft-deleted rows included — the quantity the quota
conservation claim compares `used_storage` against. -/
def sumAllSizes (st : DB) (u : Nat) : Int :=
  ((st.files.filter (fun f => f.owner == u)).map (fun f => f.size)).sum

/-- `used_storage` of `u`, `0` if the profile row is missing. -/
def usedStorage (st : DB) (u : Nat) : Int :=
  match findProfile st u with
  | none => 0
  | some p => p.used_storage

/-! ## Concrete fixtures used by the closed theorems and witnesses -/

/-- A plan with `max_storage_size=1000`, `max_file_size=400` (the
example scenario of the spec). -/
def plan1000 : StoragePlan := { max_storage_size := 1000, max_file_size := 400 }

/-- One user (id 0) on `plan1000`, empty store. -/
def baseSt : DB :=
  { files := [], folders := [], trash := [],
    profiles := [{ user := 0, storage_plan := some plan1000, used_storage := 0 }],
    blobs := [] }

/-- One user (id 0) whose `storage_plan` FK is null (reachable: plan
deletion SET-NULLs the reference). -/
def nullPlanSt : DB :=
  { files := [], folders := [], trash := [],
    profiles := [{ user := 0, storage_plan := none, used_storage := 0 }],
    blobs := [] }


/-- The step order claim C6 asserts, **modelled from the spec's words**
("decrement quota, delete blob, delete DB row, delete trash record")
for comparison with `permanent_delete_file_steps`, which is what the
source executes. -/
def claimed_purge_steps (u fid : Nat) (size : Int) (t : TrashRec) : List (DB → DB) :=
  [pdfDecrement u size, deleteBlob fid, deleteFileRow fid, eraseTrash t]

/-- Does trash row `t` reference a `File` row that currently exists?
(`empty_trash` only survives an iteration when it does.) -/
def liveFileItem (st : DB) (t : TrashRec) : Bool :=
  match t.file with
  | some fid => (st.files.map (fun f => f.id)).contains fid
  | none => false

/-- The cumulative effect of the `empty_trash` iterations over a prefix
of the snapshot whose items are all file rows (used to state what an
aborted `empty_trash` run has already committed). -/
def purgePrefix (pre : List TrashRec) (st : DB) : DB :=
  pre.foldl (fun acc t =>
    match t.file with
    | some fid => purgeTrashItem fid t acc
    | none => acc) st

/-! ### Folder subtrees as rose trees (specification side, claim C3)

A claim about "the subtree of folder F with N files and M folders" is
stated through a rose tree `FTree` that lists, per folder: its id, the
ids of the files directly inside it, and its child subtrees.  The
predicate `treeOk` ties such a tree to the database state: each listed
folder exists, is non-deleted, belongs to the user, and its actual
children/files in the state are exactly the listed ones (so the tree is
the *full* subtree and every item in it is non-deleted: the amended
claim's precondition). -/

inductive FTree where
  | node (fid : Nat) (fileIds : List Nat) (children : List FTree)

/-- Root folder id. -/
def FTree.rootId : FTree → Nat
  | .node i _ _ => i

mutual

/-- Preorder list of the folder ids of a subtree. -/
def FTree.folderIds : FTree → List Nat
  | .node i _ cs => i :: folderIdsF cs

/-- Folder ids of a forest. -/
def folderIdsF : List FTree → List Nat
  | [] => []
  | c :: cs => c.folderIds ++ folderIdsF cs

end

mutual

/-- File ids of a subtree (preorder by containing folder). -/
def FTree.fileIds : FTree → List Nat
  | .node _ fl cs => fl ++ fileIdsF cs

/-- File ids of a forest. -/
def fileIdsF : List FTree → List Nat
  | [] => []
  | c :: cs => c.fileIds ++ fileIdsF cs

end

mutual

/-- Folder-nesting depth of a subtree. -/
def FTree.depthT : FTree → Nat
  | .node _ _ cs => 1 + depthF cs

/-- Max depth of a forest. -/
def depthF : List FTree → Nat
  | [] => 0
  | c :: cs => max c.depthT (depthF cs)

end

mutual

/-- The exact list of `Trash` rows the trash cascade creates for a
subtree whose root's parent is `p`, in creation order: first the
folder's own row (`original_folder` = its immediate parent), then one
row per direct file (`original_folder` = the containing folder), then
the children in order. -/
def expRecsT (u now : Nat) : FTree → Option Nat → List TrashRec
  | .node i fl cs, p =>
    folderTrashRec u now i p
      :: (fl.map (fun x => fileTrashRec u now x i) ++ expRecsF u now cs i)

/-- Rows created for a forest of sibling subtrees below folder `parent`. -/
def expRecsF (u now : Nat) : List FTree → Nat → List TrashRec
  | [], _ => []
  | c :: cs, parent => expRecsT u now c (some parent) ++ expRecsF u now cs parent

end

mutual

/-- `treeOk u st t`: `t` is the full, fully non-deleted, user-owned
subtree of its root in state `st` (see the section header). -/
def treeOk (u : Nat) (st : DB) : FTree → Bool
  | .node i fl cs =>
    (match st.folders.find? (fun f => f.id == i) with
     | some f => f.owner == u && !f.is_deleted
     | none => false)
    && ((st.folders.filter (fun f => f.parent_folder == some i)).map (fun f => f.id) == cs.map FTree.rootId)
    && (st.folders.filter (fun f => f.parent_folder == some i)).all (fun f => !f.is_deleted)
    && ((st.files.filter (fun f => f.folder == some i)).map (fun f => f.id) == fl)
    && (st.files.filter (fun f => f.folder == some i)).all (fun f => !f.is_deleted)
    && forestOk u st cs

/-- `treeOk` for every tree of a forest. -/
def forestOk (u : Nat) (st : DB) : List FTree → Bool
  | [] => true
  | c :: cs => treeOk u st c && forestOk u st cs

end

mutual

/-- `rTreeOk st t`: the state the restore cascade expects below a
trashed folder: each listed folder exists and is deleted, the *deleted*
children/files of each listed folder are exactly the listed ones.
(This is what `treeOk` turns into after the trash cascade ran.) -/
def rTreeOk (st : DB) : FTree → Bool
  | .node i fl cs =>
    (match st.folders.find? (fun f => f.id == i) with
     | some f => f.is_deleted
     | none => false)
    && ((st.folders.filter (fun f => f.parent_folder == some i && f.is_deleted)).map (fun f => f.id) == cs.map FTree.rootId)
    && ((st.files.filter (fun f => f.folder == some i && f.is_deleted)).map (fun f => f.id) == fl)
    && rForestOk st cs

/-- `rTreeOk` for every tree of a forest. -/
def rForestOk (st : DB) : List FTree → Bool
  | [] => true
  | c :: cs => rTreeOk st c && rForestOk st cs

end

/-- Mark the folder rows whose id is listed as deleted at time `now`
(the cumulative effect of the cascade's `setFolderDeleted` calls). -/
def markFoldersByIds (ids : List Nat) (now : Nat) (l : List FolderRec) : List FolderRec :=
  l.map (fun f => if ids.contains f.id then { f with is_deleted := true, deleted_at := some now } else f)

/-- Mark the file rows whose id is listed as deleted. -/
def markFilesByIds (ids : List Nat) (l : List FileRec) : List FileRec :=
  l.map (fun f => if ids.contains f.id then { f with is_deleted := true } else f)

/-- Un-mark folder rows: `is_deleted := false`, `deleted_at := none`
(the cumulative effect of the restore cascade's `setFolderDeleted`). -/
def unmarkFoldersByIds (ids : List Nat) (l : List FolderRec) : List FolderRec :=
  l.map (fun f => if ids.contains f.id then { f with is_deleted := false, deleted_at := none } else f)

/-- Un-mark file rows. -/
def unmarkFilesByIds (ids : List Nat) (l : List FileRec) : List FileRec :=
  l.map (fun f => if ids.contains f.id then { f with is_deleted := false } else f)

/-- Does trash row `t` belong to user `u` and reference a file or
folder of the given subtree id sets? (What the restore cascade's
`Trash.objects.filter(...).delete()` calls remove in total.) -/
def refsSubtree (u : Nat) (folderIds fileIds : List Nat) (t : TrashRec) : Bool :=
  t.user == u &&
    ((match t.file with | some x => fileIds.contains x | none => false)
      || (match t.folder with | some j => folderIds.contains j | none => false))

/-! ### Fixtures for witnesses and counterexamples -/

/-- The profile row of `baseSt`. -/
def profBase : UserProfile := { user := 0, storage_plan := some plan1000, used_storage := 0 }

/-- The profile row of `nullPlanSt`. -/
def profNull : UserProfile := { user := 0, storage_plan := none, used_storage := 0 }

/-- A trash row for file 1 of user 0. -/
def t6rec : TrashRec :=
  { user := 0, file := some 1, folder := none, original_folder := none,
    scheduled_permanent_deletion := 130 }

/-- A state with one trashed 5-byte file (id 1, blob present, trash row
`t6rec`) and `used_storage = 5`. -/
def fileSt : DB :=
  { files := [{ id := 1, size := 5, owner := 0, folder := none, is_deleted := true }],
    folders := [], trash := [t6rec],
    profiles := [{ user := 0, storage_plan := some plan1000, used_storage := 5 }],
    blobs := [1] }

/-- An active, password-protected share link for file 7 with an expiry
instant 50. -/
def linkPw : ShareLink :=
  { token := 1, file := some 7, folder := none, expires_at := some 50,
    is_active := true, require_password := true, password_hash := some "s3cret" }

/-- An active share link whose `expires_at` (instant 50) can lie in the
past. -/
def linkExp : ShareLink :=
  { token := 2, file := some 8, folder := none, expires_at := some 50,
    is_active := true, require_password := false, password_hash := none }

/-- Two-level concrete subtree: folder 10 (file 1) containing folder 11
(file 2). -/
def treeW : FTree := FTree.node 10 [1] [FTree.node 11 [2] []]

/-- State realising `treeW` for user 0: both folders non-deleted, both
files non-deleted, empty trash. -/
def treeSt : DB :=
  { files := [{ id := 1, size := 5, owner := 0, folder := some 10, is_deleted := false },
              { id := 2, size := 7, owner := 0, folder := some 11, is_deleted := false }],
    folders := [{ id := 10, name := "A", owner := 0, parent_folder := none, is_deleted := false, deleted_at := none },
                { id := 11, name := "B", owner := 0, parent_folder := some 10, is_deleted := false, deleted_at := none }],
    trash := [],
    profiles := [{ user := 0, storage_plan := some plan1000, used_storage := 12 }],
    blobs := [1, 2] }

/-- A state whose trash snapshot for user 0 is a single live file row
(file 1, 300 bytes, trashed). -/
def okTrashSt : DB := runOps 0 100 [Op.upload 1 300, Op.trashFile 1] baseSt

/-- A state whose trash snapshot for user 0 is a *folder* row followed
by a live file row. -/
def abortTrashSt : DB :=
  runOps 0 100 [Op.createFolder 10 "A" none, Op.upload 1 50, Op.trashFolder 10, Op.trashFile 1] baseSt

/-- The folder trash row of `abortTrashSt`. -/
def folderTrashRecW : TrashRec :=
  { user := 0, file := none, folder := some 10, original_folder := none,
    scheduled_permanent_deletion := 130 }

/-- The file trash row of `abortTrashSt`. -/
def fileTrashRecW : TrashRec :=
  { user := 0, file := some 1, folder := none, original_folder := none,
    scheduled_permanent_deletion := 130 }

/-- One iteration of the `delete_subfolders_recursive` fold (views.py
lines 1691-1719), as a named function: mark the subfolder, create its
trash row (`original_folder` = the parent being traversed), trash its
files, recurse. -/
def trashStep (u now fuel parent : Nat) (acc : DB) (sub : Nat) : DB :=
  delete_subfolders_recursive u now fuel sub
    (trashFilesIn u now sub
      (addTrash (folderTrashRec u now sub (some parent))
        (setFolderDeleted sub true (some now) acc)))

/-- The net effect of the trash cascade over a forest of sibling
subtrees below `parent`: every listed folder and file is marked
deleted, and the expected trash rows are appended. -/
def cascadeResult (u now : Nat) (cs : List FTree) (parent : Nat) (st : DB) : DB :=
  { st with
      folders := markFoldersByIds (folderIdsF cs) now st.folders,
      files := markFilesByIds (fileIdsF cs) st.files,
      trash := st.trash ++ expRecsF u now cs parent }

/-- The net effect of `move_folder_to_trash` on a whole subtree whose
root's parent pointer is `p`. -/
def treeTrashed (u now : Nat) (t : FTree) (p : Option Nat) (st : DB) : DB :=
  { st with
      folders := markFoldersByIds t.folderIds now st.folders,
      files := markFilesByIds t.fileIds st.files,
      trash := st.trash ++ expRecsT u now t p }

/-- Does trash row `t` belong to user `u` and reference one of the
listed files?  (What one pass of `restoreFilesIn`'s
`Trash.objects.filter(file=..., user=...).delete()` calls remove.) -/
def fileRefsPred (u : Nat) (fl : List Nat) (t : TrashRec) : Bool :=
  (match t.file with | some x => fl.contains x | none => false) && t.user == u

/-- Does trash row `t` belong to user `u` and reference one of the
listed folders? -/
def folderRefsPred (u : Nat) (ds : List Nat) (t : TrashRec) : Bool :=
  (match t.folder with | some j => ds.contains j | none => false) && t.user == u

/-- One iteration of the `restore_subfolders_recursive` fold (views.py
lines 1760-1780): un-mark the subfolder, delete its trash rows, restore
its files, recurse. -/
def restoreStep (u fuel : Nat) (acc : DB) (sub : Nat) : DB :=
  restore_subfolders_recursive u fuel sub
    (restoreFilesIn u sub
      (removeTrashWhere (fun t => t.folder == some sub && t.user == u)
        (setFolderDeleted sub false none acc)))

/-- The net effect of the restore cascade over a forest: every listed
folder and file is un-marked and every trash row of user `u`
referencing one of them is removed. -/
def restoreResult (u : Nat) (cs : List FTree) (st : DB) : DB :=
  { st with
      folders := unmarkFoldersByIds (folderIdsF cs) st.folders,
      files := unmarkFilesByIds (fileIdsF cs) st.files,
      trash := st.trash.filter (fun t => !(refsSubtree u (folderIdsF cs) (fileIdsF cs) t)) }

/-! ## Theorems -/

/-- **C1** (code bug).  Quota conservation fails: the purge paths
`empty_trash` (views.py lines 940-964) and `permanent_delete_folder`
(views.py lines 1797-1823) delete `File` rows without decrementing
`used_storage`, although `permanent_delete_file` (lines 921-924) does
decrement — so the claimed invariant `used_storage = sum of sizes of
still-existing files` breaks on the first folder/empty-trash purge.
Concretely: upload a 300-byte file, trash it (counter still consistent,
300 = 300, confirming the claim's trash-neutrality part), then purge it
via `empty_trash`: every file row is gone but `used_storage` is still
300 instead of 0. -/
theorem c1_quota_conservation_violated_by_empty_trash :
    usedStorage (runOps 0 100 [Op.upload 1 300, Op.trashFile 1] baseSt) 0 =
      sumAllSizes (runOps 0 100 [Op.upload 1 300, Op.trashFile 1] baseSt) 0 ∧
    (empty_trash 0 (runOps 0 100 [Op.upload 1 300, Op.trashFile 1] baseSt)).snd =
      OpResult.okCount 1 ∧
    (runOps 0 100 [Op.upload 1 300, Op.trashFile 1, Op.emptyTrash] baseSt).files = [] ∧
    usedStorage (runOps 0 100 [Op.upload 1 300, Op.trashFile 1, Op.emptyTrash] baseSt) 0 = 300 ∧
    sumAllSizes (runOps 0 100 [Op.upload 1 300, Op.trashFile 1, Op.emptyTrash] baseSt) 0 = 0 := by
  decide

/-- **C7** (code bug).  `used_storage` goes negative on a reachable
sequence: upload 300 (counter 300), trash the file (counter 300), view
the dashboard (its recompute at views.py lines 207-213 excludes
soft-deleted files, resetting the counter to 0), then purge the file
(`permanent_delete_file` decrements again, views.py line 923): the
counter ends at -300.  The claim's second part — a second purge of the
same file is a no-op — does hold and is included. -/
theorem c7_negative_quota_reachable :
    usedStorage (runOps 0 100 [Op.upload 1 300, Op.trashFile 1, Op.dashboard, Op.purgeFile 1] baseSt) 0 = -300 ∧
    usedStorage (runOps 0 100 [Op.upload 1 300, Op.trashFile 1, Op.dashboard, Op.purgeFile 1] baseSt) 0 < 0 ∧
    permanent_delete_file 0 1 (runOps 0 100 [Op.upload 1 300, Op.trashFile 1, Op.dashboard, Op.purgeFile 1] baseSt) =
      (runOps 0 100 [Op.upload 1 300, Op.trashFile 1, Op.dashboard, Op.purgeFile 1] baseSt, OpResult.errNotFound) := by
  decide

/-- **C4** (code bug).  Folder purge does not recurse: build
`A(id 10) ⊃ B(id 11) ⊃ C(id 12)` with a 50-byte file (id 1) inside `B`,
trash `A`, purge `A`.  `permanent_delete_folder` deletes only the direct
files and direct subfolders of `A`; deleting `B`'s row SET-NULLs
`C.parent_folder`, so the trashed grandchild `C` survives re-attached at
the root, and the file's row dies by FK cascade while its blob is never
deleted (orphaned). -/
theorem c4_purge_not_recursive :
    (runOps 0 100 [Op.createFolder 10 "A" none, Op.createFolder 11 "B" (some 10), Op.createFolder 12 "C" (some 11), Op.upload 1 50, Op.moveFile 1 (some 11), Op.trashFolder 10, Op.purgeFolder 10] baseSt).folders.map
        (fun f => (f.id, f.parent_folder, f.is_deleted)) = [(12, none, true)] ∧
    (runOps 0 100 [Op.createFolder 10 "A" none, Op.createFolder 11 "B" (some 10), Op.createFolder 12 "C" (some 11), Op.upload 1 50, Op.moveFile 1 (some 11), Op.trashFolder 10, Op.purgeFolder 10] baseSt).files = [] ∧
    (runOps 0 100 [Op.createFolder 10 "A" none, Op.createFolder 11 "B" (some 10), Op.createFolder 12 "C" (some 11), Op.upload 1 50, Op.moveFile 1 (some 11), Op.trashFolder 10, Op.purgeFolder 10] baseSt).blobs = [1] := by
  decide

/-! ### Generic list helpers -/

/-- `find?` over a pointwise-modified list, when the modification does
not change the predicate's verdict. -/
theorem find?_map_comm {α : Type} (l : List α) (h : α → α) (p : α → Bool)
    (hp : ∀ a, p (h a) = p a) :
    (l.map h).find? p = (l.find? p).map h := by
  induction l with
  | nil => rfl
  | cons a as ih =>
    by_cases hpa : p a = true
    · rw [List.map_cons, List.find?_cons_of_pos _ ((hp a).trans hpa),
        List.find?_cons_of_pos _ hpa, Option.map_some']
    · rw [List.map_cons, List.find?_cons_of_neg, List.find?_cons_of_neg _ hpa, ih]
      rw [hp a]; exact hpa

/-- A `filter`-then-project query is unchanged by a pointwise
modification that preserves both the predicate and the projection. -/
theorem filter_map_pointwise {α β : Type} (l : List α) (h : α → α) (p : α → Bool) (g : α → β)
    (hp : ∀ a, p (h a) = p a) (hg : ∀ a, g (h a) = g a) :
    ((l.map h).filter p).map g = (l.filter p).map g := by
  induction l with
  | nil => rfl
  | cons a as ih =>
    by_cases hpa : p a = true
    · rw [List.map_cons, List.filter_cons_of_pos ((hp a).trans hpa),
        List.filter_cons_of_pos hpa, List.map_cons, List.map_cons, ih, hg]
    · rw [List.map_cons, List.filter_cons_of_neg, List.filter_cons_of_neg, ih]
      · exact fun hc => hpa hc
      · rw [hp a]; exact fun hc => hpa hc

/-- An `all`-over-`filter` check is unchanged by a pointwise
modification preserving the predicate and the checked property. -/
theorem filter_all_pointwise {α : Type} (l : List α) (h : α → α) (p q : α → Bool)
    (hp : ∀ a, p (h a) = p a) (hq : ∀ a, q (h a) = q a) :
    ((l.map h).filter p).all q = (l.filter p).all q := by
  induction l with
  | nil => rfl
  | cons a as ih =>
    by_cases hpa : p a = true
    · rw [List.map_cons, List.filter_cons_of_pos ((hp a).trans hpa),
        List.filter_cons_of_pos hpa, List.all_cons, List.all_cons, ih, hq]
    · rw [List.map_cons, List.filter_cons_of_neg, List.filter_cons_of_neg, ih]
      · exact fun hc => hpa hc
      · rw [hp a]; exact fun hc => hpa hc

/-- Strengthening a successful `find?` with an extra conjunct the found
element satisfies. -/
theorem find?_and_true {α : Type} {l : List α} {q r : α → Bool} {b : α}
    (hq : l.find? q = some b) (hr : r b = true) :
    l.find? (fun a => q a && r a) = some b := by
  induction l with
  | nil => simp at hq
  | cons a as ih =>
    by_cases hqa : q a = true
    · rw [List.find?_cons_of_pos _ hqa] at hq
      obtain rfl : a = b := by simpa using hq
      exact List.find?_cons_of_pos _ (by simp [hqa, hr])
    · rw [List.find?_cons_of_neg _ hqa] at hq
      rw [List.find?_cons_of_neg, ih hq]
      simp [hqa]

/-- `find?` by key over a keyed in-place update. -/
theorem find?_update_key (l : List UserProfile) (u : Nat) (g : UserProfile → UserProfile)
    (hg : ∀ p, (g p).user = p.user) :
    (l.map (fun p => if p.user == u then g p else p)).find? (fun p => p.user == u)
      = (l.find? (fun p => p.user == u)).map g := by
  induction l with
  | nil => rfl
  | cons a as ih =>
    by_cases h : (a.user == u) = true
    · simp only [List.map_cons, List.find?]
      simp [h, hg]
    · have hfa : (a.user == u) = false := by simpa using h
      simp only [List.map_cons, List.find?]
      rw [if_neg h, hfa]
      exact ih

/-- Looking up user `u` after `updateProfile u g` yields the updated
row, provided `g` keeps the `user` key. -/
theorem findProfile_updateProfile (st : DB) (u : Nat) (g : UserProfile → UserProfile)
    (hg : ∀ p, (g p).user = p.user) :
    findProfile (updateProfile u g st) u = (findProfile st u).map g :=
  find?_update_key st.profiles u g hg

/-- **C2** (confirmed).  Upload admission (views.py lines 306-342):
oversize uploads fail with the file-size error and change nothing;
quota-exceeding uploads fail with the storage-limit error and change
nothing; admitted uploads create the file and increment `used_storage`
by exactly the file's size.  The final conjunct replays the spec's
example scenario (limits 1000/400; uploads 300, 400, 400, 300). -/
theorem c2_upload_admission (st : DB) (u fid : Nat) (size : Int)
    (prof : UserProfile) (plan : StoragePlan)
    (hp : findProfile st u = some prof) (hpl : prof.storage_plan = some plan) :
    (size > plan.max_file_size → upload_file u fid size st = (st, OpResult.errFileSize)) ∧
    (size ≤ plan.max_file_size → prof.used_storage + size > plan.max_storage_size →
      upload_file u fid size st = (st, OpResult.errStorage)) ∧
    (size ≤ plan.max_file_size → prof.used_storage + size ≤ plan.max_storage_size →
      (upload_file u fid size st).snd = OpResult.ok ∧
      (upload_file u fid size st).fst.files
        = st.files ++ [{ id := fid, size := size, owner := u, folder := none, is_deleted := false }] ∧
      findProfile (upload_file u fid size st).fst u
        = some { prof with used_storage := prof.used_storage + size }) ∧
    ((upload_file 0 1 300 baseSt).snd = OpResult.ok ∧
     usedStorage (runOps 0 100 [Op.upload 1 300] baseSt) 0 = 300 ∧
     (upload_file 0 2 400 (runOps 0 100 [Op.upload 1 300] baseSt)).snd = OpResult.ok ∧
     usedStorage (runOps 0 100 [Op.upload 1 300, Op.upload 2 400] baseSt) 0 = 700 ∧
     (upload_file 0 3 400 (runOps 0 100 [Op.upload 1 300, Op.upload 2 400] baseSt)).snd
       = OpResult.errStorage ∧
     (upload_file 0 3 400 (runOps 0 100 [Op.upload 1 300, Op.upload 2 400] baseSt)).fst
       = runOps 0 100 [Op.upload 1 300, Op.upload 2 400] baseSt ∧
     (upload_file 0 4 300 (runOps 0 100 [Op.upload 1 300, Op.upload 2 400] baseSt)).snd
       = OpResult.ok ∧
     usedStorage (runOps 0 100 [Op.upload 1 300, Op.upload 2 400, Op.upload 4 300] baseSt) 0
       = 1000) := by
  refine ⟨?_, ?_, ?_, by decide⟩
  · intro h
    simp only [upload_file, hp, hpl, if_pos h]
  · intro h1 h2
    simp only [upload_file, hp, hpl]
    rw [if_neg (by omega), if_pos h2]
  · intro h1 h2
    simp only [upload_file, hp, hpl]
    rw [if_neg (by omega), if_neg (by omega)]
    refine ⟨rfl, rfl, ?_⟩
    show findProfile (updateProfile u (fun p => { p with used_storage := p.used_storage + size })
      { st with files := st.files ++ [{ id := fid, size := size, owner := u, folder := none, is_deleted := false }], blobs := st.blobs ++ [fid] }) u = _
    rw [findProfile_updateProfile]
    · show (findProfile st u).map _ = _
      rw [hp]
      simp [hpl]
    · intro p
      rfl

/-- Witness for `c2_upload_admission`: the admitted-upload branch at a
concrete input. -/
theorem c2_upload_admission_witness :
    findProfile baseSt 0 = some profBase ∧ profBase.storage_plan = some plan1000 ∧
    (300 : Int) ≤ plan1000.max_file_size ∧
    profBase.used_storage + 300 ≤ plan1000.max_storage_size ∧
    ((upload_file 0 5 300 baseSt).snd = OpResult.ok ∧
     (upload_file 0 5 300 baseSt).fst.files
       = baseSt.files ++ [{ id := 5, size := 300, owner := 0, folder := none, is_deleted := false }] ∧
     findProfile (upload_file 0 5 300 baseSt).fst 0
       = some { profBase with used_storage := profBase.used_storage + 300 }) :=
  ⟨by decide, by decide, by decide, by decide,
    (c2_upload_admission baseSt 0 5 300 profBase plan1000 (by decide) (by decide)).2.2.1
      (by decide) (by decide)⟩

/-- **C10** (confirmed).  With a null `storage_plan`:
`get_storage_usage_percent` returns 0 (models.py line 75),
`can_upload_file` rejects every size (models.py lines 79-80), and the
upload view dies on the null plan before any mutation
(`user_profile.storage_plan.max_file_size`, views.py line 320), so
`used_storage` can never grow. -/
theorem c10_null_plan_behaviour (st : DB) (u : Nat) (prof : UserProfile)
    (hp : findProfile st u = some prof) (hpl : prof.storage_plan = none) :
    prof.get_storage_usage_percent = 0 ∧
    (∀ size : Int, prof.can_upload_file size = false) ∧
    (∀ fid : Nat, ∀ size : Int, upload_file u fid size st = (st, OpResult.errNullPlan)) := by
  refine ⟨?_, ?_, ?_⟩
  · simp [UserProfile.get_storage_usage_percent, hpl]
  · intro size
    simp [UserProfile.can_upload_file, hpl]
  · intro fid size
    simp [upload_file, hp, hpl]

/-- Witness for `c10_null_plan_behaviour` at a concrete state. -/
theorem c10_null_plan_behaviour_witness :
    findProfile nullPlanSt 0 = some profNull ∧ profNull.storage_plan = none ∧
    profNull.get_storage_usage_percent = 0 ∧
    profNull.can_upload_file 123 = false ∧
    upload_file 0 7 123 nullPlanSt = (nullPlanSt, OpResult.errNullPlan) :=
  ⟨by decide, rfl,
    (c10_null_plan_behaviour nullPlanSt 0 profNull (by decide) rfl).1,
    (c10_null_plan_behaviour nullPlanSt 0 profNull (by decide) rfl).2.1 123,
    (c10_null_plan_behaviour nullPlanSt 0 profNull (by decide) rfl).2.2 7 123⟩

/-- **C8** (confirmed).  An active share link whose `expires_at` lies in
the past resolves to `Expired` (views.py lines 695-700), and resolution
returns the link table and session store unchanged (the view performs
no write on any path): expiry is computed, never stored. -/
theorem c8_expiry_precedence (links : List ShareLink) (ss : SessionStore) (sid token : Nat)
    (now e : Int) (l : ShareLink)
    (hfind : links.find? (fun k => k.token == token && k.is_active) = some l)
    (hexp : l.expires_at = some e) (hlt : e < now) :
    l.is_active = true ∧
    share_file links ss sid token now = (ResolveRes.expired, links, ss) := by
  have hact := List.find?_some hfind
  constructor
  · exact (Bool.and_eq_true _ _ |>.mp hact).2
  · simp only [share_file, hfind, hexp]
    simp [hlt]

/-- Witness for `c8_expiry_precedence`: the fixture link `linkExp`
(active, `expires_at = 50`) resolved at instant 100. -/
theorem c8_expiry_precedence_witness :
    ([linkExp].find? (fun k => k.token == 2 && k.is_active) = some linkExp) ∧
    linkExp.expires_at = some 50 ∧ (50 : Int) < 100 ∧
    (linkExp.is_active = true ∧
     share_file [linkExp] [] 0 2 100 = (ResolveRes.expired, [linkExp], [])) :=
  ⟨by decide, rfl, by decide,
    c8_expiry_precedence [linkExp] [] 0 2 100 50 linkExp (by decide) rfl (by decide)⟩

/-- Setting the verification flag in session `a` does not change what
any other session `b` sees. -/
theorem sessionVerified_set_other (ss : SessionStore) (a b token tok : Nat)
    (hab : (a == b) = false) :
    sessionVerified (setSessionVerified ss a token) b tok = sessionVerified ss b tok := by
  unfold setSessionVerified
  cases hfind : ss.find? (fun e => e.fst == a) with
  | none =>
    unfold sessionVerified
    rw [List.find?_append]
    cases hb : ss.find? (fun e => e.fst == b) with
    | none => simp [List.find?, hab]
    | some eb => simp
  | some e0 =>
    unfold sessionVerified
    rw [find?_map_comm]
    · cases hb : ss.find? (fun e => e.fst == b) with
      | none => simp
      | some eb =>
        have hpb := List.find?_some hb
        have hbeq : eb.fst = b := by simpa using hpb
        have hne : (eb.fst == a) = false := by
          rw [hbeq]
          have hno : ¬ a = b := by simpa using hab
          exact beq_eq_false_iff_ne.mpr (fun hh => hno hh.symm)
        simp only [Option.map_some']
        rw [hne]
        simp
    · intro e1
      by_cases h1 : (e1.fst == a) = true
      · simp [h1]
      · simp [h1]

/-- **C9** (confirmed).  Password isolation: a successful
`verify_share_password` in session `a` (views.py lines 1838-1841) sets
the `share_verified_<token>` key in `a`'s session dictionary only;
any distinct session `b` still sees the flag unset, and resolving the
token in `b` still demands the password. -/
theorem c9_password_isolation (links : List ShareLink) (ss : SessionStore)
    (a b token : Nat) (pw : String) (now : Int) (l : ShareLink)
    (hab : (a == b) = false)
    (hfind : links.find? (fun k => k.token == token && k.is_active) = some l)
    (hpw : l.has_password = true)
    (hne : (pw == "") = false)
    (hchk : l.chk_password pw = true)
    (hnexp : ∀ e : Int, l.expires_at = some e → ¬ e < now)
    (hbv : sessionVerified ss b token = false) :
    (verify_share_password links ss a token pw).fst = VerifyRes.okVerified ∧
    sessionVerified (verify_share_password links ss a token pw).snd b token = false ∧
    (share_file links (verify_share_password links ss a token pw).snd b token now).fst
      = ResolveRes.passwordRequired := by
  have hv : verify_share_password links ss a token pw
      = (VerifyRes.okVerified, setSessionVerified ss a token) := by
    simp only [verify_share_password, hfind, hpw, hchk]
    simp [hne]
  have hiso : sessionVerified (setSessionVerified ss a token) b token = false := by
    rw [sessionVerified_set_other ss a b token token hab, hbv]
  refine ⟨by rw [hv], by rw [hv]; exact hiso, ?_⟩
  rw [hv]
  show (share_file links (setSessionVerified ss a token) b token now).fst = _
  have hexpf : (match l.expires_at with | some e => decide (e < now) | none => false) = false := by
    cases he : l.expires_at with
    | none => rfl
    | some e => simpa using hnexp e he
  simp only [share_file, hfind]
  simp [hexpf, hpw, hiso]

/-- Witness for `c9_password_isolation`: sessions 0 and 1, fixture link
`linkPw` (password "s3cret"), instant 40 (before expiry 50). -/
theorem c9_password_isolation_witness :
    ((0 : Nat) == 1) = false ∧
    ([linkPw].find? (fun k => k.token == 1 && k.is_active) = some linkPw) ∧
    linkPw.has_password = true ∧
    linkPw.chk_password "s3cret" = true ∧
    sessionVerified [] 1 1 = false ∧
    ((verify_share_password [linkPw] [] 0 1 "s3cret").fst = VerifyRes.okVerified ∧
     sessionVerified (verify_share_password [linkPw] [] 0 1 "s3cret").snd 1 1 = false ∧
     (share_file [linkPw] (verify_share_password [linkPw] [] 0 1 "s3cret").snd 1 1 40).fst
       = ResolveRes.passwordRequired) :=
  ⟨rfl, by decide, rfl, by decide, rfl,
    c9_password_isolation [linkPw] [] 0 1 1 "s3cret" 40 linkPw rfl (by decide) rfl (by decide)
      (by decide) (fun e he => by injection he with h50; omega) rfl⟩

/-- **C6 counterexample**.  The claim asserts the purge order
decrement → blob → *DB row* → *trash record*; the source
(views.py lines 921-928) executes decrement → blob → *trash record* →
*DB row*.  On the concrete state `fileSt`, stopping after three steps
(failure injected before the last statement) distinguishes the two
orders: the source has deleted the Trash row while the File row is
still present; the claimed order would have deleted the File row
(cascading away the Trash row) instead. -/
theorem c6_counterexample :
    runSteps ((permanent_delete_file_steps 0 1 5 t6rec).take 3) fileSt
      ≠ runSteps ((claimed_purge_steps 0 1 5 t6rec).take 3) fileSt ∧
    (runSteps ((permanent_delete_file_steps 0 1 5 t6rec).take 3) fileSt).trash = [] ∧
    ((runSteps ((permanent_delete_file_steps 0 1 5 t6rec).take 3) fileSt).files.map
      (fun f => f.id)) = [1] ∧
    (runSteps ((claimed_purge_steps 0 1 5 t6rec).take 3) fileSt).files = [] := by
  decide

/-- **C6 amended** (corrected claim).  `permanent_delete_file` performs
its effects in the order decrement `used_storage` → delete blob →
delete the *Trash record* → delete the *File row* (the last two steps
in the reverse of the claimed order), and a failure after any step
leaves all earlier steps' effects intact and everything later
untouched: after step 1 only the counter changed; after step 2 the blob
is also gone but both rows remain; after step 3 the trash row is gone
while the file row is still present (retryable); step 4 completes the
purge. -/
theorem c6_purge_step_order (st : DB) (u fid : Nat) (f : FileRec) (t : TrashRec)
    (prof : UserProfile)
    (hf : findOwnedFileDel st u fid true = some f)
    (ht : getUniqueTrash st (fun r => r.file == some fid && r.user == u) = some t)
    (hp : findProfile st u = some prof) :
    permanent_delete_file u fid st
      = (runSteps (permanent_delete_file_steps u fid f.size t) st, OpResult.ok) ∧
    (runSteps ((permanent_delete_file_steps u fid f.size t).take 1) st).files = st.files ∧
    (runSteps ((permanent_delete_file_steps u fid f.size t).take 1) st).blobs = st.blobs ∧
    (runSteps ((permanent_delete_file_steps u fid f.size t).take 1) st).trash = st.trash ∧
    findProfile (runSteps ((permanent_delete_file_steps u fid f.size t).take 1) st) u
      = some { prof with used_storage := prof.used_storage - f.size } ∧
    (runSteps ((permanent_delete_file_steps u fid f.size t).take 2) st).files = st.files ∧
    (runSteps ((permanent_delete_file_steps u fid f.size t).take 2) st).trash = st.trash ∧
    (runSteps ((permanent_delete_file_steps u fid f.size t).take 2) st).blobs
      = st.blobs.filter (fun b => b != fid) ∧
    (runSteps ((permanent_delete_file_steps u fid f.size t).take 3) st).trash
      = st.trash.erase t ∧
    (runSteps ((permanent_delete_file_steps u fid f.size t).take 3) st).files = st.files ∧
    (runSteps ((permanent_delete_file_steps u fid f.size t).take 4) st).files
      = st.files.filter (fun g => g.id != fid) ∧
    findProfile (runSteps ((permanent_delete_file_steps u fid f.size t).take 4) st) u
      = some { prof with used_storage := prof.used_storage - f.size } := by
  have hstep1 : findProfile (pdfDecrement u f.size st) u
      = some { prof with used_storage := prof.used_storage - f.size } := by
    unfold pdfDecrement
    rw [findProfile_updateProfile]
    · rw [hp]
      rfl
    · intro p
      rfl
  refine ⟨?_, rfl, rfl, rfl, hstep1, rfl, rfl, rfl, rfl, rfl, rfl, hstep1⟩
  simp only [permanent_delete_file, hf, ht, hp]

/-- Witness for `c6_purge_step_order` at the concrete state `fileSt`. -/
theorem c6_purge_step_order_witness :
    findOwnedFileDel fileSt 0 1 true
      = some { id := 1, size := 5, owner := 0, folder := none, is_deleted := true } ∧
    getUniqueTrash fileSt (fun r => r.file == some 1 && r.user == 0) = some t6rec ∧
    findProfile fileSt 0 = some { user := 0, storage_plan := some plan1000, used_storage := 5 } ∧
    permanent_delete_file 0 1 fileSt
      = (runSteps (permanent_delete_file_steps 0 1 5 t6rec) fileSt, OpResult.ok) :=
  ⟨by decide, by decide, by decide,
    (c6_purge_step_order fileSt 0 1
      { id := 1, size := 5, owner := 0, folder := none, is_deleted := true } t6rec
      { user := 0, storage_plan := some plan1000, used_storage := 5 }
      (by decide) (by decide) (by decide)).1⟩

/-- `empty_trash` loop, all-success case: when every snapshot item is a
file-trash row whose file row exists (with no two rows referencing the
same file), the loop purges every item and counts them all. -/
theorem empty_trash_go_ok (items : List TrashRec) (count : Nat) (st : DB)
    (hall : ∀ t ∈ items, liveFileItem st t = true)
    (hnd : (items.filterMap (fun t => t.file)).Nodup) :
    empty_trash_go items count st
      = (purgePrefix items st, OpResult.okCount (count + items.length)) := by
  induction items generalizing count st with
  | nil => simp [empty_trash_go, purgePrefix]
  | cons t rest ih =>
    have hlive := hall t (by simp)
    unfold liveFileItem at hlive
    cases hft : t.file with
    | none => rw [hft] at hlive; simp at hlive
    | some fid =>
      rw [hft] at hlive
      have hmem : fid ∈ st.files.map (fun f => f.id) := by simpa using hlive
      have hfind : (st.files.find? (fun f => f.id == fid)).isSome := by
        rw [List.find?_isSome]
        obtain ⟨f0, hf0, hid⟩ := List.mem_map.mp hmem
        exact ⟨f0, hf0, by simp [hid]⟩
      obtain ⟨f0, hf0⟩ := Option.isSome_iff_exists.mp hfind
      have hstep : empty_trash_go (t :: rest) count st
          = empty_trash_go rest (count + 1) (purgeTrashItem fid t st) := by
        simp only [empty_trash_go, hft, hf0]
      rw [hstep]
      have hfiles : (purgeTrashItem fid t st).files = st.files.filter (fun f => f.id != fid) := rfl
      have hnd' : (rest.filterMap (fun r => r.file)).Nodup := by
        rw [List.filterMap_cons, hft] at hnd
        exact hnd.of_cons
      have hnotin : fid ∉ rest.filterMap (fun r => r.file) := by
        rw [List.filterMap_cons, hft] at hnd
        exact (List.nodup_cons.mp hnd).1
      rw [ih (count + 1) (purgeTrashItem fid t st) ?_ hnd']
      · have hpp : purgePrefix (t :: rest) st = purgePrefix rest (purgeTrashItem fid t st) := by
          simp only [purgePrefix, List.foldl_cons, hft]
        have hcnt : count + 1 + rest.length = count + (t :: rest).length := by
          simp [List.length_cons]
          omega
        rw [hpp, hcnt]
      · intro r hr
        have hlr := hall r (by simp [hr])
        unfold liveFileItem at hlr ⊢
        cases hrf : r.file with
        | none => rw [hrf] at hlr; simp at hlr
        | some fid2 =>
          rw [hrf] at hlr
          have hmem2 : fid2 ∈ st.files.map (fun f => f.id) := by simpa using hlr
          have hne : fid2 ≠ fid := by
            intro hcontra
            apply hnotin
            rw [← hcontra]
            exact List.mem_filterMap.mpr ⟨r, hr, hrf⟩
          rw [hfiles]
          obtain ⟨f1, hf1, hid1⟩ := List.mem_map.mp hmem2
          have : f1 ∈ st.files.filter (fun f => f.id != fid) := by
            rw [List.mem_filter]
            exact ⟨hf1, by simp [hid1, hne]⟩
          simpa using List.mem_map.mpr ⟨f1, this, hid1⟩

/-- `empty_trash` loop, abort case: the first item that is not a live
file row (in particular every *folder* trash row, whose `file` FK is
null) raises, aborting the whole view; the items already processed stay
purged, the rest is untouched, and no count is returned. -/
theorem empty_trash_go_abort (pre : List TrashRec) (t : TrashRec) (rest : List TrashRec)
    (count : Nat) (st : DB)
    (hpre : ∀ r ∈ pre, liveFileItem st r = true)
    (hnd : (pre.filterMap (fun r => r.file)).Nodup)
    (ht : t.file = none) :
    empty_trash_go (pre ++ t :: rest) count st = (purgePrefix pre st, OpResult.errAbort) := by
  induction pre generalizing count st with
  | nil =>
    simp only [List.nil_append, empty_trash_go, ht]
    rfl
  | cons r pre' ih =>
    have hlive := hpre r (by simp)
    unfold liveFileItem at hlive
    cases hrf : r.file with
    | none => rw [hrf] at hlive; simp at hlive
    | some fid =>
      rw [hrf] at hlive
      have hmem : fid ∈ st.files.map (fun f => f.id) := by simpa using hlive
      have hfind : (st.files.find? (fun f => f.id == fid)).isSome := by
        rw [List.find?_isSome]
        obtain ⟨f0, hf0, hid⟩ := List.mem_map.mp hmem
        exact ⟨f0, hf0, by simp [hid]⟩
      obtain ⟨f0, hf0⟩ := Option.isSome_iff_exists.mp hfind
      have hstep : empty_trash_go ((r :: pre') ++ t :: rest) count st
          = empty_trash_go (pre' ++ t :: rest) (count + 1) (purgeTrashItem fid r st) := by
        simp only [List.cons_append, empty_trash_go, hrf, hf0]
        rfl
      rw [hstep]
      have hnd' : (pre'.filterMap (fun x => x.file)).Nodup := by
        rw [List.filterMap_cons, hrf] at hnd
        exact hnd.of_cons
      have hnotin : fid ∉ pre'.filterMap (fun x => x.file) := by
        rw [List.filterMap_cons, hrf] at hnd
        exact (List.nodup_cons.mp hnd).1
      rw [ih (count + 1) (purgeTrashItem fid r st) ?_ hnd']
      · have hpp : purgePrefix (r :: pre') st = purgePrefix pre' (purgeTrashItem fid r st) := by
          simp only [purgePrefix, List.foldl_cons, hrf]
        rw [hpp]
      · intro x hx
        have hlx := hpre x (by simp [hx])
        unfold liveFileItem at hlx ⊢
        cases hxf : x.file with
        | none => rw [hxf] at hlx; simp at hlx
        | some fid2 =>
          rw [hxf] at hlx
          have hmem2 : fid2 ∈ st.files.map (fun f => f.id) := by simpa using hlx
          have hne : fid2 ≠ fid := by
            intro hcontra
            apply hnotin
            rw [← hcontra]
            exact List.mem_filterMap.mpr ⟨x, hx, hxf⟩
          obtain ⟨f1, hf1, hid1⟩ := List.mem_map.mp hmem2
          have hf1m : f1 ∈ st.files.filter (fun f => f.id != fid) := by
            rw [List.mem_filter]
            exact ⟨hf1, by simp [hid1, hne]⟩
          have hgoal : fid2 ∈ (purgeTrashItem fid r st).files.map (fun f => f.id) :=
            List.mem_map.mpr ⟨f1, hf1m, hid1⟩
          simpa using hgoal

/-- **C5 amended** (corrected claim).  `empty_trash` (views.py lines
940-964) iterates the user's trash rows newest-first
(`Trash.Meta.ordering = ['-deleted_at']`), assuming each references a
live file: when every row does (and no two rows share a file), it
purges them all and returns their count; but the first row in that
order that does not — in particular *any folder trash row*, since the
code reads `trash_item.file` unconditionally — aborts the entire view
with an error (no count), keeping only the effects of the rows already
processed instead of continuing with the remaining ones. -/
theorem c5_empty_trash_abort_semantics (u : Nat) (st : DB) :
    ((∀ r ∈ (st.trash.filter (fun r => r.user == u)).reverse, liveFileItem st r = true) →
     (((st.trash.filter (fun r => r.user == u)).reverse).filterMap (fun r => r.file)).Nodup →
     empty_trash u st = (purgePrefix ((st.trash.filter (fun r => r.user == u)).reverse) st,
       OpResult.okCount ((st.trash.filter (fun r => r.user == u)).reverse).length)) ∧
    (∀ pre t rest, (st.trash.filter (fun r => r.user == u)).reverse = pre ++ t :: rest →
     t.file = none →
     (∀ r ∈ pre, liveFileItem st r = true) →
     (pre.filterMap (fun r => r.file)).Nodup →
     empty_trash u st = (purgePrefix pre st, OpResult.errAbort)) := by
  constructor
  · intro h1 h2
    unfold empty_trash
    rw [empty_trash_go_ok _ 0 _ h1 h2, Nat.zero_add]
  · intro pre t rest hsplit hnone h1 h2
    unfold empty_trash
    rw [hsplit, empty_trash_go_abort pre t rest 0 st h1 h2 hnone]

/-- **C5 counterexample**.  On `abortTrashSt` the user's trash holds a
folder row (older) and a live file row (newer).  Iterating
newest-first, `empty_trash` purges the file (its trash row, DB row and
blob are gone afterwards), then hits the folder row, whose null `file`
FK raises — and the whole view aborts with an error: no count is
returned and the folder row is never attempted as a folder,
contradicting the claim that per-item failures are skipped and the
count of successes (here 1) is returned. -/
theorem c5_counterexample :
    (empty_trash 0 abortTrashSt).snd = OpResult.errAbort ∧
    abortTrashSt.trash = [folderTrashRecW, fileTrashRecW] ∧
    (empty_trash 0 abortTrashSt).fst.trash = [folderTrashRecW] ∧
    (empty_trash 0 abortTrashSt).fst.files = [] ∧
    abortTrashSt.files.length = 1 := by
  decide

/-- Witness for `c5_empty_trash_abort_semantics`: the success branch on
`okTrashSt`, the abort branch on `abortTrashSt` (newest-first snapshot
`[fileTrashRecW, folderTrashRecW]`, so the file row is purged before
the folder row aborts the view). -/
theorem c5_empty_trash_abort_semantics_witness :
    (∀ r ∈ (okTrashSt.trash.filter (fun r => r.user == 0)).reverse,
      liveFileItem okTrashSt r = true) ∧
    (abortTrashSt.trash.filter (fun r => r.user == 0)).reverse
      = [fileTrashRecW] ++ folderTrashRecW :: [] ∧
    folderTrashRecW.file = none ∧
    (empty_trash 0 okTrashSt
      = (purgePrefix ((okTrashSt.trash.filter (fun r => r.user == 0)).reverse) okTrashSt,
         OpResult.okCount ((okTrashSt.trash.filter (fun r => r.user == 0)).reverse).length)) ∧
    (empty_trash 0 abortTrashSt
      = (purgePrefix [fileTrashRecW] abortTrashSt, OpResult.errAbort)) :=
  ⟨by decide, by decide, rfl,
    (c5_empty_trash_abort_semantics 0 okTrashSt).1 (by decide) (by decide),
    (c5_empty_trash_abort_semantics 0 abortTrashSt).2 [fileTrashRecW] folderTrashRecW []
      (by decide) rfl (by decide) (by decide)⟩

/-! ### Mark/unmark algebra -/

theorem markFoldersByIds_nil (now : Nat) (l : List FolderRec) :
    markFoldersByIds [] now l = l := by
  simp [markFoldersByIds]

theorem markFilesByIds_nil (l : List FileRec) : markFilesByIds [] l = l := by
  simp [markFilesByIds]

theorem unmarkFoldersByIds_nil (l : List FolderRec) : unmarkFoldersByIds [] l = l := by
  simp [unmarkFoldersByIds]

theorem unmarkFilesByIds_nil (l : List FileRec) : unmarkFilesByIds [] l = l := by
  simp [unmarkFilesByIds]

theorem markFilesByIds_append (l1 l2 : List Nat) (fs : List FileRec) :
    markFilesByIds l2 (markFilesByIds l1 fs) = markFilesByIds (l1 ++ l2) fs := by
  unfold markFilesByIds
  rw [List.map_map]
  apply List.map_congr_left
  intro f _
  by_cases h1 : f.id ∈ l1
  · by_cases h2 : f.id ∈ l2 <;> simp [h1, h2]
  · by_cases h2 : f.id ∈ l2 <;> simp [h1, h2]

theorem markFoldersByIds_append (l1 l2 : List Nat) (now : Nat) (fs : List FolderRec) :
    markFoldersByIds l2 now (markFoldersByIds l1 now fs) = markFoldersByIds (l1 ++ l2) now fs := by
  unfold markFoldersByIds
  rw [List.map_map]
  apply List.map_congr_left
  intro f _
  by_cases h1 : f.id ∈ l1
  · by_cases h2 : f.id ∈ l2 <;> simp [h1, h2]
  · by_cases h2 : f.id ∈ l2 <;> simp [h1, h2]

theorem unmarkFilesByIds_append (l1 l2 : List Nat) (fs : List FileRec) :
    unmarkFilesByIds l2 (unmarkFilesByIds l1 fs) = unmarkFilesByIds (l1 ++ l2) fs := by
  unfold unmarkFilesByIds
  rw [List.map_map]
  apply List.map_congr_left
  intro f _
  by_cases h1 : f.id ∈ l1
  · by_cases h2 : f.id ∈ l2 <;> simp [h1, h2]
  · by_cases h2 : f.id ∈ l2 <;> simp [h1, h2]

theorem unmarkFoldersByIds_append (l1 l2 : List Nat) (fs : List FolderRec) :
    unmarkFoldersByIds l2 (unmarkFoldersByIds l1 fs) = unmarkFoldersByIds (l1 ++ l2) fs := by
  unfold unmarkFoldersByIds
  rw [List.map_map]
  apply List.map_congr_left
  intro f _
  by_cases h1 : f.id ∈ l1
  · by_cases h2 : f.id ∈ l2 <;> simp [h1, h2]
  · by_cases h2 : f.id ∈ l2 <;> simp [h1, h2]

/-- `setFileDeleted _ true` is marking with a singleton id list. -/
theorem setFileDeleted_eq_mark (x : Nat) (st : DB) :
    setFileDeleted x true st = { st with files := markFilesByIds [x] st.files } := by
  unfold setFileDeleted markFilesByIds
  congr 1
  apply List.map_congr_left
  intro f _
  by_cases hx : f.id = x
  · simp [hx]
  · simp [hx]

/-- `setFolderDeleted _ true (some now)` is marking with a singleton. -/
theorem setFolderDeleted_eq_mark (x now : Nat) (st : DB) :
    setFolderDeleted x true (some now) st
      = { st with folders := markFoldersByIds [x] now st.folders } := by
  unfold setFolderDeleted markFoldersByIds
  congr 1
  apply List.map_congr_left
  intro f _
  by_cases hx : f.id = x
  · simp [hx]
  · simp [hx]

/-- `setFolderDeleted _ false none` is un-marking with a singleton. -/
theorem setFolderDeleted_eq_unmark (x : Nat) (st : DB) :
    setFolderDeleted x false none st
      = { st with folders := unmarkFoldersByIds [x] st.folders } := by
  unfold setFolderDeleted unmarkFoldersByIds
  congr 1
  apply List.map_congr_left
  intro f _
  by_cases hx : f.id = x
  · simp [hx]
  · simp [hx]

/-- `filter`-then-project query, pointwise-modified list, membership
version: the modification must preserve the predicate on list members
and the projection on members passing the predicate. -/
theorem filter_map_pointwise_mem {α β : Type} (l : List α) (h : α → α) (p : α → Bool) (g : α → β)
    (hp : ∀ a ∈ l, p (h a) = p a) (hg : ∀ a ∈ l, p a = true → g (h a) = g a) :
    ((l.map h).filter p).map g = (l.filter p).map g := by
  induction l with
  | nil => rfl
  | cons a as ih =>
    have hpa := hp a (by simp)
    have ihr := ih (fun x hx => hp x (by simp [hx])) (fun x hx => hg x (by simp [hx]))
    by_cases hc : p a = true
    · rw [List.map_cons, List.filter_cons_of_pos (hpa.trans hc), List.filter_cons_of_pos hc,
        List.map_cons, List.map_cons, hg a (by simp) hc, ihr]
    · rw [List.map_cons, List.filter_cons_of_neg, List.filter_cons_of_neg, ihr]
      · exact fun hcc => hc hcc
      · rw [hpa]
        exact fun hcc => hc hcc

/-- `all`-over-`filter` check, membership version. -/
theorem filter_all_pointwise_mem {α : Type} (l : List α) (h : α → α) (p q : α → Bool)
    (hp : ∀ a ∈ l, p (h a) = p a) (hq : ∀ a ∈ l, p a = true → q (h a) = q a) :
    ((l.map h).filter p).all q = (l.filter p).all q := by
  induction l with
  | nil => rfl
  | cons a as ih =>
    have hpa := hp a (by simp)
    have ihr := ih (fun x hx => hp x (by simp [hx])) (fun x hx => hq x (by simp [hx]))
    by_cases hc : p a = true
    · rw [List.map_cons, List.filter_cons_of_pos (hpa.trans hc), List.filter_cons_of_pos hc,
        List.all_cons, List.all_cons, hq a (by simp) hc, ihr]
    · rw [List.map_cons, List.filter_cons_of_neg, List.filter_cons_of_neg, ihr]
      · exact fun hcc => hc hcc
      · rw [hpa]
        exact fun hcc => hc hcc

/-- `find?` over a pointwise-modified list, membership version. -/
theorem find?_map_comm_mem {α : Type} (l : List α) (h : α → α) (p : α → Bool)
    (hp : ∀ a ∈ l, p (h a) = p a) :
    (l.map h).find? p = (l.find? p).map h := by
  induction l with
  | nil => rfl
  | cons a as ih =>
    have hpa := hp a (by simp)
    have ihr := ih (fun x hx => hp x (by simp [hx]))
    by_cases hc : p a = true
    · rw [List.map_cons, List.find?_cons_of_pos _ (hpa.trans hc),
        List.find?_cons_of_pos _ hc, Option.map_some']
    · rw [List.map_cons, List.find?_cons_of_neg, List.find?_cons_of_neg _ hc, ihr]
      rw [hpa]
      exact hc

/-- `setFileDeleted _ false` is un-marking with a singleton id list. -/
theorem setFileDeleted_eq_unmark (x : Nat) (st : DB) :
    setFileDeleted x false st = { st with files := unmarkFilesByIds [x] st.files } := by
  unfold setFileDeleted unmarkFilesByIds
  congr 1
  apply List.map_congr_left
  intro f _
  by_cases hx : f.id = x
  · simp [hx]
  · simp [hx]

/-- Cumulative effect of the per-file loop of the trash cascade. -/
theorem trash_files_fold (fl : List Nat) (mkRec : Nat → TrashRec) (st : DB) :
    fl.foldl (fun acc x => addTrash (mkRec x) (setFileDeleted x true acc)) st
      = { st with files := markFilesByIds fl st.files, trash := st.trash ++ fl.map mkRec } := by
  induction fl generalizing st with
  | nil => simp [markFilesByIds_nil]
  | cons x fl' ih =>
    rw [List.foldl_cons, ih]
    rw [setFileDeleted_eq_mark]
    show (⟨markFilesByIds fl' (markFilesByIds [x] st.files), st.folders,
      (st.trash ++ [mkRec x]) ++ fl'.map mkRec, st.profiles, st.blobs⟩ : DB) = _
    rw [markFilesByIds_append, List.append_assoc]
    rfl

/-- Cumulative effect of the per-file loop of the restore cascade. -/
theorem restore_files_fold (u : Nat) (fl : List Nat) (st : DB) :
    fl.foldl (fun acc x =>
        removeTrashWhere (fun t => t.file == some x && t.user == u) (setFileDeleted x false acc)) st
      = { st with files := unmarkFilesByIds fl st.files,
                  trash := st.trash.filter (fun t => !(fileRefsPred u fl t)) } := by
  induction fl generalizing st with
  | nil =>
    have : ∀ t ∈ st.trash, (!(fileRefsPred u [] t)) = true := by
      intro t _
      cases ht : t.file <;> simp [fileRefsPred, ht]
    simp [unmarkFilesByIds_nil]
    rw [List.filter_eq_self.mpr this]
  | cons x fl' ih =>
    rw [List.foldl_cons, ih]
    rw [setFileDeleted_eq_unmark]
    show (⟨unmarkFilesByIds fl' (unmarkFilesByIds [x] st.files), st.folders,
      (st.trash.filter (fun t => !(t.file == some x && t.user == u))).filter
        (fun t => !(fileRefsPred u fl' t)), st.profiles, st.blobs⟩ : DB) = _
    rw [unmarkFilesByIds_append, List.filter_filter]
    have : ∀ t ∈ st.trash,
        ((!(fileRefsPred u fl' t)) && (!(t.file == some x && t.user == u)))
          = (!(fileRefsPred u ([x] ++ fl') t)) := by
      intro t _
      cases ht : t.file with
      | none => simp [fileRefsPred, ht]
      | some y =>
        by_cases hy : y = x
        · by_cases hu : (t.user == u) = true <;> simp [fileRefsPred, ht, hy, hu]
        · by_cases hy2 : y ∈ fl' <;> by_cases hu : (t.user == u) = true <;>
            simp [fileRefsPred, ht, hy, hy2, hu]
    rw [List.filter_congr this]
    rfl

/-- Unfolding characterisation of `treeOk` at a node. -/
theorem treeOk_iff (u : Nat) (st : DB) (i : Nat) (fl : List Nat) (cs : List FTree) :
    treeOk u st (.node i fl cs) = true ↔
      ((match st.folders.find? (fun f => f.id == i) with
        | some f => f.owner == u && !f.is_deleted
        | none => false) = true ∧
       (st.folders.filter (fun f => f.parent_folder == some i)).map (fun f => f.id)
         = cs.map FTree.rootId ∧
       (st.folders.filter (fun f => f.parent_folder == some i)).all (fun f => !f.is_deleted) = true ∧
       (st.files.filter (fun f => f.folder == some i)).map (fun f => f.id) = fl ∧
       (st.files.filter (fun f => f.folder == some i)).all (fun f => !f.is_deleted) = true ∧
       forestOk u st cs = true) := by
  unfold treeOk
  simp only [Bool.and_eq_true, beq_iff_eq]
  tauto

/-- Unfolding characterisation of `forestOk`. -/
theorem forestOk_cons (u : Nat) (st : DB) (c : FTree) (cs : List FTree) :
    forestOk u st (c :: cs) = true ↔ treeOk u st c = true ∧ forestOk u st cs = true := by
  have h : forestOk u st (c :: cs) = (treeOk u st c && forestOk u st cs) := rfl
  rw [h, Bool.and_eq_true]

/-- Unfolding characterisation of `rTreeOk` at a node. -/
theorem rTreeOk_iff (st : DB) (i : Nat) (fl : List Nat) (cs : List FTree) :
    rTreeOk st (.node i fl cs) = true ↔
      ((match st.folders.find? (fun f => f.id == i) with
        | some f => f.is_deleted
        | none => false) = true ∧
       (st.folders.filter (fun f => f.parent_folder == some i && f.is_deleted)).map (fun f => f.id)
         = cs.map FTree.rootId ∧
       (st.files.filter (fun f => f.folder == some i && f.is_deleted)).map (fun f => f.id) = fl ∧
       rForestOk st cs = true) := by
  unfold rTreeOk
  simp only [Bool.and_eq_true, beq_iff_eq]
  tauto

/-- Unfolding characterisation of `rForestOk`. -/
theorem rForestOk_cons (st : DB) (c : FTree) (cs : List FTree) :
    rForestOk st (c :: cs) = true ↔ rTreeOk st c = true ∧ rForestOk st cs = true := by
  have h : rForestOk st (c :: cs) = (rTreeOk st c && rForestOk st cs) := rfl
  rw [h, Bool.and_eq_true]

/-- The per-file loop of the cascade over folder `i`, expressed through
its snapshot: when the folder's files are exactly `fl` and all
non-deleted, the loop marks exactly them and appends their rows. -/
theorem trashFilesIn_eq (u now i : Nat) (st : DB) (fl : List Nat)
    (hq : (st.files.filter (fun f => f.folder == some i)).map (fun f => f.id) = fl)
    (hnd : (st.files.filter (fun f => f.folder == some i)).all (fun f => !f.is_deleted) = true) :
    trashFilesIn u now i st
      = { st with files := markFilesByIds fl st.files,
                  trash := st.trash ++ fl.map (fun x => fileTrashRec u now x i) } := by
  unfold trashFilesIn
  have hfe : st.files.filter (fun f => f.folder == some i && !f.is_deleted)
      = st.files.filter (fun f => f.folder == some i) := by
    apply List.filter_congr
    intro a ha
    by_cases hfo : (a.folder == some i) = true
    · have hin : a ∈ st.files.filter (fun f => f.folder == some i) :=
        List.mem_filter.mpr ⟨ha, hfo⟩
      have := List.all_eq_true.mp hnd a hin
      simp [hfo, this]
    · simp [hfo]
  rw [hfe, hq]
  exact trash_files_fold fl _ st

theorem folderIds_node (i : Nat) (fl : List Nat) (cs : List FTree) :
    (FTree.node i fl cs).folderIds = i :: folderIdsF cs := rfl

theorem folderIdsF_nil : folderIdsF [] = [] := rfl

theorem folderIdsF_cons (c : FTree) (cs : List FTree) :
    folderIdsF (c :: cs) = c.folderIds ++ folderIdsF cs := rfl

theorem fileIds_node (i : Nat) (fl : List Nat) (cs : List FTree) :
    (FTree.node i fl cs).fileIds = fl ++ fileIdsF cs := rfl

theorem fileIdsF_nil : fileIdsF [] = [] := rfl

theorem fileIdsF_cons (c : FTree) (cs : List FTree) :
    fileIdsF (c :: cs) = c.fileIds ++ fileIdsF cs := rfl

theorem depthT_node (i : Nat) (fl : List Nat) (cs : List FTree) :
    (FTree.node i fl cs).depthT = 1 + depthF cs := rfl

theorem depthF_cons (c : FTree) (cs : List FTree) :
    depthF (c :: cs) = max c.depthT (depthF cs) := rfl

theorem expRecsT_node (u now i : Nat) (fl : List Nat) (cs : List FTree) (p : Option Nat) :
    expRecsT u now (.node i fl cs) p
      = folderTrashRec u now i p
          :: (fl.map (fun x => fileTrashRec u now x i) ++ expRecsF u now cs i) := rfl

theorem expRecsF_nil (u now parent : Nat) : expRecsF u now [] parent = [] := rfl

theorem expRecsF_cons (u now parent : Nat) (c : FTree) (cs : List FTree) :
    expRecsF u now (c :: cs) parent = expRecsT u now c (some parent) ++ expRecsF u now cs parent := rfl

/-- The root id of a forest member is among the forest's folder ids. -/
theorem rootId_mem_folderIdsF (cs : List FTree) (r : FTree) (hr : r ∈ cs) :
    r.rootId ∈ folderIdsF cs := by
  induction cs with
  | nil => cases hr
  | cons c cs' ih =>
    rw [folderIdsF_cons]
    rcases List.mem_cons.mp hr with h | h
    · subst h
      cases r with
      | node j fl2 ch2 =>
        rw [folderIds_node]
        simp [FTree.rootId]
    · exact List.mem_append.mpr (Or.inr (ih h))

/-- `forestOk` is stable under marking folders/files whose ids are
disjoint from the forest, and under any change to the trash table. -/
theorem forestOk_marked (n : Nat) : ∀ (cs : List FTree), (folderIdsF cs).length ≤ n →
    ∀ (u now : Nat) (st : DB) (D E : List Nat) (tr : List TrashRec),
    forestOk u st cs = true →
    (∀ j ∈ folderIdsF cs, j ∉ D) →
    (∀ x ∈ fileIdsF cs, x ∉ E) →
    forestOk u { st with folders := markFoldersByIds D now st.folders,
                         files := markFilesByIds E st.files, trash := tr } cs = true := by
  induction n with
  | zero =>
    intro cs hlen u now st D E tr hok hD hE
    cases cs with
    | nil => rfl
    | cons c cs' =>
      exfalso
      cases c with
      | node i fl ch => simp [folderIdsF_cons, folderIds_node] at hlen
  | succ m ih =>
    intro cs hlen u now st D E tr hok hD hE
    cases cs with
    | nil => rfl
    | cons c cs' =>
      cases c with
      | node i fl ch =>
        rw [forestOk_cons] at hok
        obtain ⟨hc, hcs⟩ := hok
        rw [treeOk_iff] at hc
        obtain ⟨hnode, hch, hchnd, hfl, hnd, hfo⟩ := hc
        have hids : folderIdsF (FTree.node i fl ch :: cs')
            = (i :: folderIdsF ch) ++ folderIdsF cs' := by
          rw [folderIdsF_cons, folderIds_node]
        have hfids : fileIdsF (FTree.node i fl ch :: cs')
            = (fl ++ fileIdsF ch) ++ fileIdsF cs' := by
          rw [fileIdsF_cons, fileIds_node]
        have hiD : i ∉ D := by
          apply hD
          rw [hids]
          simp
        have hlen1 : (folderIdsF ch).length ≤ m := by
          rw [hids] at hlen
          simp [List.length_append] at hlen
          omega
        have hlen2 : (folderIdsF cs').length ≤ m := by
          rw [hids] at hlen
          simp [List.length_append] at hlen
          omega
        rw [forestOk_cons]
        constructor
        · rw [treeOk_iff]
          refine ⟨?_, ?_, ?_, ?_, ?_, ?_⟩
          · show (match (markFoldersByIds D now st.folders).find? (fun f => f.id == i) with
                  | some f => f.owner == u && !f.is_deleted
                  | none => false) = true
            have hfm : (markFoldersByIds D now st.folders).find? (fun f => f.id == i)
                = (st.folders.find? (fun f => f.id == i)).map
                    (fun f => if D.contains f.id then { f with is_deleted := true, deleted_at := some now } else f) := by
              unfold markFoldersByIds
              apply find?_map_comm
              intro a
              by_cases hm : a.id ∈ D <;> simp [hm]
            rw [hfm]
            cases hfind : st.folders.find? (fun f => f.id == i) with
            | none => rw [hfind] at hnode; simp at hnode
            | some f0 =>
              rw [hfind] at hnode
              have hid0 : f0.id = i := by simpa using List.find?_some hfind
              have hDc : ¬ f0.id ∈ D := by rw [hid0]; exact hiD
              simp only [Option.map_some']
              rw [if_neg (by simpa using hDc)]
              exact hnode
          · show ((markFoldersByIds D now st.folders).filter
                (fun f => f.parent_folder == some i)).map (fun f => f.id) = _
            unfold markFoldersByIds
            rw [filter_map_pointwise st.folders _ _ _
              (fun a => by by_cases hm : a.id ∈ D <;> simp [hm])
              (fun a => by by_cases hm : a.id ∈ D <;> simp [hm])]
            exact hch
          · show ((markFoldersByIds D now st.folders).filter
                (fun f => f.parent_folder == some i)).all (fun f => !f.is_deleted) = true
            unfold markFoldersByIds
            rw [filter_all_pointwise_mem st.folders _ _ _
              (fun a _ => by by_cases hm : a.id ∈ D <;> simp [hm]) ?_]
            · exact hchnd
            · intro a ha hpa
              have haf : a ∈ st.folders.filter (fun f => f.parent_folder == some i) :=
                List.mem_filter.mpr ⟨ha, hpa⟩
              have hmm : a.id ∈ (st.folders.filter
                  (fun f => f.parent_folder == some i)).map (fun f => f.id) :=
                List.mem_map.mpr ⟨a, haf, rfl⟩
              rw [hch] at hmm
              obtain ⟨r, hr, hrid⟩ := List.mem_map.mp hmm
              have hmemF : a.id ∈ folderIdsF ch := by
                rw [← hrid]
                exact rootId_mem_folderIdsF ch r hr
              have hnotD : a.id ∉ D := by
                apply hD
                rw [hids]
                simp [hmemF]
              simp [hnotD]
          · show ((markFilesByIds E st.files).filter
                (fun f => f.folder == some i)).map (fun f => f.id) = fl
            unfold markFilesByIds
            rw [filter_map_pointwise st.files _ _ _
              (fun a => by by_cases hm : a.id ∈ E <;> simp [hm])
              (fun a => by by_cases hm : a.id ∈ E <;> simp [hm])]
            exact hfl
          · show ((markFilesByIds E st.files).filter
                (fun f => f.folder == some i)).all (fun f => !f.is_deleted) = true
            unfold markFilesByIds
            rw [filter_all_pointwise_mem st.files _ _ _
              (fun a _ => by by_cases hm : a.id ∈ E <;> simp [hm]) ?_]
            · exact hnd
            · intro a ha hpa
              have haf : a ∈ st.files.filter (fun f => f.folder == some i) :=
                List.mem_filter.mpr ⟨ha, hpa⟩
              have hafl : a.id ∈ fl := by
                rw [← hfl]
                exact List.mem_map.mpr ⟨a, haf, rfl⟩
              have hnotE : a.id ∉ E := by
                apply hE
                rw [hfids]
                simp [hafl]
              simp [hnotE]
          · exact ih ch hlen1 u now st D E tr hfo
              (fun j hj => hD j (by rw [hids]; simp [hj]))
              (fun x hx => hE x (by rw [hfids]; simp [hx]))
        · exact ih cs' hlen2 u now st D E tr hcs
            (fun j hj => hD j (by rw [hids]; simp [hj]))
            (fun x hx => hE x (by rw [hfids]; simp [hx]))

/-- Membership bound for forest depth. -/
theorem depthT_le_depthF (cs : List FTree) (c : FTree) (hc : c ∈ cs) :
    c.depthT ≤ depthF cs := by
  induction cs with
  | nil => cases hc
  | cons d cs' ih =>
    rw [depthF_cons]
    rcases List.mem_cons.mp hc with h | h
    · subst h
      exact Nat.le_max_left _ _
    · exact Nat.le_trans (ih h) (Nat.le_max_right _ _)

/-- `delete_subfolders_recursive` at positive fuel is the fold of
`trashStep` over the snapshot of non-deleted children. -/
theorem delete_subfolders_succ (u now fu parent : Nat) (st : DB) :
    delete_subfolders_recursive u now (fu + 1) parent st
      = ((st.folders.filter (fun f => f.parent_folder == some parent && !f.is_deleted)).map
          (fun f => f.id)).foldl (trashStep u now fu parent) st := rfl


/-- Central lemma for the trash cascade: folding `trashStep` over the
roots of a forest of `treeOk` subtrees marks exactly the forest's
folders and files and appends exactly the expected trash rows, provided
the forest's ids are duplicate-free and the fuel dominates its depth. -/
theorem trash_fold_eq (n : Nat) : ∀ (cs : List FTree), (folderIdsF cs).length ≤ n →
    ∀ (u now parent fuel : Nat) (st : DB),
    forestOk u st cs = true →
    (folderIdsF cs).Nodup →
    (fileIdsF cs).Nodup →
    (∀ c ∈ cs, c.depthT ≤ fuel + 1) →
    (cs.map FTree.rootId).foldl (trashStep u now fuel parent) st
      = cascadeResult u now cs parent st := by
  induction n with
  | zero =>
    intro cs hlen u now parent fuel st hok hndD hndE hdep
    cases cs with
    | nil =>
      show st = cascadeResult u now [] parent st
      unfold cascadeResult
      rw [folderIdsF_nil, fileIdsF_nil, markFoldersByIds_nil, markFilesByIds_nil,
        expRecsF_nil, List.append_nil]
    | cons c cs' =>
      exfalso
      cases c with
      | node i fl ch => simp [folderIdsF_cons, folderIds_node] at hlen
  | succ m ih =>
    intro cs hlen u now parent fuel st hok hndD hndE hdep
    cases cs with
    | nil =>
      show st = cascadeResult u now [] parent st
      unfold cascadeResult
      rw [folderIdsF_nil, fileIdsF_nil, markFoldersByIds_nil, markFilesByIds_nil,
        expRecsF_nil, List.append_nil]
    | cons c cs' =>
      cases c with
      | node i fl ch =>
        have hids : folderIdsF (FTree.node i fl ch :: cs')
            = (i :: folderIdsF ch) ++ folderIdsF cs' := by
          rw [folderIdsF_cons, folderIds_node]
        have hfids : fileIdsF (FTree.node i fl ch :: cs')
            = (fl ++ fileIdsF ch) ++ fileIdsF cs' := by
          rw [fileIdsF_cons, fileIds_node]
        rw [forestOk_cons] at hok
        obtain ⟨hc, hcs⟩ := hok
        rw [treeOk_iff] at hc
        obtain ⟨hnode, hch, hchnd, hfl, hnd, hfo⟩ := hc
        rw [hids] at hndD
        rw [hfids] at hndE
        rw [List.nodup_append] at hndD hndE
        obtain ⟨hndD1, hndD2, hdisD⟩ := hndD
        obtain ⟨hndE1, hndE2, hdisE⟩ := hndE
        have hiNotCh : i ∉ folderIdsF ch := (List.nodup_cons.mp hndD1).1
        have hndDch : (folderIdsF ch).Nodup := (List.nodup_cons.mp hndD1).2
        rw [List.nodup_append] at hndE1
        obtain ⟨hndfl, hndEch, hdisflch⟩ := hndE1
        have hlen1 : (folderIdsF ch).length ≤ m := by
          rw [hids] at hlen
          simp [List.length_append] at hlen
          omega
        have hlen2 : (folderIdsF cs').length ≤ m := by
          rw [hids] at hlen
          simp [List.length_append] at hlen
          omega
        have hdepn := hdep (FTree.node i fl ch) (by simp)
        rw [depthT_node] at hdepn
        have hS3 : trashFilesIn u now i
            (addTrash (folderTrashRec u now i (some parent))
              (setFolderDeleted i true (some now) st))
            = (⟨markFilesByIds fl st.files, markFoldersByIds [i] now st.folders,
                st.trash ++ [folderTrashRec u now i (some parent)]
                  ++ fl.map (fun x => fileTrashRec u now x i),
                st.profiles, st.blobs⟩ : DB) := by
          rw [setFolderDeleted_eq_mark]
          exact trashFilesIn_eq u now i _ fl hfl hnd
        have hquery3 : ((markFoldersByIds [i] now st.folders).filter
              (fun f => f.parent_folder == some i && !f.is_deleted)).map (fun f => f.id)
            = ch.map FTree.rootId := by
          unfold markFoldersByIds
          rw [filter_map_pointwise_mem st.folders _ _ _ ?_
            (fun a _ _ => by by_cases hm : a.id = i <;> simp [hm])]
          · have hfe : st.folders.filter (fun f => f.parent_folder == some i && !f.is_deleted)
                = st.folders.filter (fun f => f.parent_folder == some i) := by
              apply List.filter_congr
              intro a ha
              by_cases hp2 : (a.parent_folder == some i) = true
              · have hin : a ∈ st.folders.filter (fun f => f.parent_folder == some i) :=
                  List.mem_filter.mpr ⟨ha, hp2⟩
                have := List.all_eq_true.mp hchnd a hin
                simp [hp2, this]
              · simp [hp2]
            rw [hfe, hch]
          · intro a ha
            by_cases hm : a.id = i
            · by_cases hp2 : (a.parent_folder == some i) = true
              · exfalso
                have hin : a ∈ st.folders.filter (fun f => f.parent_folder == some i) :=
                  List.mem_filter.mpr ⟨ha, hp2⟩
                have hmm : a.id ∈ (st.folders.filter
                    (fun f => f.parent_folder == some i)).map (fun f => f.id) :=
                  List.mem_map.mpr ⟨a, hin, rfl⟩
                rw [hch] at hmm
                obtain ⟨r, hr, hrid⟩ := List.mem_map.mp hmm
                apply hiNotCh
                rw [← hm, ← hrid]
                exact rootId_mem_folderIdsF ch r hr
              · simp [hm, hp2]
            · simp [hm]
        have hstep : trashStep u now fuel parent st i
            = (⟨markFilesByIds (fl ++ fileIdsF ch) st.files,
                markFoldersByIds ([i] ++ folderIdsF ch) now st.folders,
                st.trash ++ expRecsT u now (.node i fl ch) (some parent),
                st.profiles, st.blobs⟩ : DB) := by
          unfold trashStep
          rw [hS3]
          cases fuel with
          | zero =>
            have hch0 : ch = [] := by
              cases ch with
              | nil => rfl
              | cons d ds =>
                exfalso
                have hd := depthT_le_depthF (d :: ds) d (by simp)
                cases d with
                | node j fl2 ch2 =>
                  rw [depthT_node] at hd
                  omega
            subst hch0
            show (⟨markFilesByIds fl st.files, markFoldersByIds [i] now st.folders,
                st.trash ++ [folderTrashRec u now i (some parent)]
                  ++ fl.map (fun x => fileTrashRec u now x i),
                st.profiles, st.blobs⟩ : DB) = _
            rw [expRecsT_node, expRecsF_nil, folderIdsF_nil, fileIdsF_nil]
            simp [List.append_assoc]
          | succ fu =>
            rw [delete_subfolders_succ]
            dsimp only
            rw [hquery3]
            have hfor3 : forestOk u (⟨markFilesByIds fl st.files,
                markFoldersByIds [i] now st.folders,
                st.trash ++ [folderTrashRec u now i (some parent)]
                  ++ fl.map (fun x => fileTrashRec u now x i),
                st.profiles, st.blobs⟩ : DB) ch = true := by
              exact forestOk_marked (folderIdsF ch).length ch le_rfl u now st [i] fl _ hfo
                (fun j hj => by
                  simp only [List.mem_singleton]
                  exact fun hji => hiNotCh (hji ▸ hj))
                (fun x hx => fun hxfl => (hdisflch hxfl) hx)
            have hdep' : ∀ c' ∈ ch, c'.depthT ≤ fu + 1 := by
              intro c' hc'
              have h1 := depthT_le_depthF ch c' hc'
              omega
            rw [ih ch hlen1 u now i fu _ hfor3 hndDch hndEch hdep']
            unfold cascadeResult
            dsimp only
            rw [markFoldersByIds_append, markFilesByIds_append, expRecsT_node]
            rw [List.append_assoc, List.append_assoc]
            rfl
        rw [List.map_cons]
        show (FTree.rootId (FTree.node i fl ch) :: cs'.map FTree.rootId).foldl
          (trashStep u now fuel parent) st = _
        rw [List.foldl_cons]
        show (cs'.map FTree.rootId).foldl (trashStep u now fuel parent)
          (trashStep u now fuel parent st i) = _
        rw [hstep]
        have hforS : forestOk u (⟨markFilesByIds (fl ++ fileIdsF ch) st.files,
                markFoldersByIds ([i] ++ folderIdsF ch) now st.folders,
                st.trash ++ expRecsT u now (.node i fl ch) (some parent),
                st.profiles, st.blobs⟩ : DB) cs' = true := by
          exact forestOk_marked (folderIdsF cs').length cs' le_rfl u now st
            ([i] ++ folderIdsF ch) (fl ++ fileIdsF ch) _ hcs
            (fun j hj => by
              intro hjm
              rcases List.mem_append.mp hjm with h1 | h1
              · rcases List.mem_singleton.mp h1 with rfl
                exact hdisD (by simp) hj
              · exact hdisD (by simp [h1]) hj)
            (fun x hx => fun hxm => hdisE hxm hx)
        have hdep2 : ∀ c' ∈ cs', c'.depthT ≤ fuel + 1 := fun c' hc' => hdep c' (by simp [hc'])
        rw [ih cs' hlen2 u now parent fuel _ hforS hndD2 hndE2 hdep2]
        unfold cascadeResult
        dsimp only
        rw [markFoldersByIds_append, markFilesByIds_append]
        rw [hids, hfids, expRecsF_cons]
        simp [List.append_assoc]

/-- A forest's depth is at most its node count. -/
theorem depthF_le_length (n : Nat) : ∀ (cs : List FTree), (folderIdsF cs).length ≤ n →
    depthF cs ≤ (folderIdsF cs).length := by
  induction n with
  | zero =>
    intro cs hlen
    cases cs with
    | nil =>
      show depthF [] ≤ (folderIdsF []).length
      rfl
    | cons c cs' =>
      exfalso
      cases c with
      | node i fl ch => simp [folderIdsF_cons, folderIds_node] at hlen
  | succ m ih =>
    intro cs hlen
    cases cs with
    | nil =>
      show depthF [] ≤ (folderIdsF []).length
      rfl
    | cons c cs' =>
      cases c with
      | node i fl ch =>
        have hids : folderIdsF (FTree.node i fl ch :: cs')
            = (i :: folderIdsF ch) ++ folderIdsF cs' := by
          rw [folderIdsF_cons, folderIds_node]
        have h1 : (folderIdsF ch).length ≤ m := by
          rw [hids] at hlen
          simp [List.length_append] at hlen
          omega
        have h2 : (folderIdsF cs').length ≤ m := by
          rw [hids] at hlen
          simp [List.length_append] at hlen
          omega
        have i1 := ih ch h1
        have i2 := ih cs' h2
        rw [depthF_cons, depthT_node, hids]
        simp only [List.length_append, List.length_cons]
        exact Nat.max_le.mpr ⟨by omega, by omega⟩

/-- Every folder id of a `forestOk` forest is the id of a folder row. -/
theorem folderIdsF_subset (n : Nat) : ∀ (cs : List FTree), (folderIdsF cs).length ≤ n →
    ∀ (u : Nat) (st : DB), forestOk u st cs = true →
    ∀ j ∈ folderIdsF cs, j ∈ st.folders.map (fun f => f.id) := by
  induction n with
  | zero =>
    intro cs hlen u st hok j hj
    cases cs with
    | nil => rw [folderIdsF_nil] at hj; cases hj
    | cons c cs' =>
      exfalso
      cases c with
      | node i fl ch => simp [folderIdsF_cons, folderIds_node] at hlen
  | succ m ih =>
    intro cs hlen u st hok j hj
    cases cs with
    | nil => rw [folderIdsF_nil] at hj; cases hj
    | cons c cs' =>
      cases c with
      | node i fl ch =>
        have hids : folderIdsF (FTree.node i fl ch :: cs')
            = (i :: folderIdsF ch) ++ folderIdsF cs' := by
          rw [folderIdsF_cons, folderIds_node]
        have h1 : (folderIdsF ch).length ≤ m := by
          rw [hids] at hlen
          simp [List.length_append] at hlen
          omega
        have h2 : (folderIdsF cs').length ≤ m := by
          rw [hids] at hlen
          simp [List.length_append] at hlen
          omega
        rw [forestOk_cons] at hok
        obtain ⟨hc, hcs⟩ := hok
        rw [treeOk_iff] at hc
        obtain ⟨hnode, hch, hchnd, hfl, hnd, hfo⟩ := hc
        rw [hids] at hj
        rcases List.mem_append.mp hj with h | h
        · rcases List.mem_cons.mp h with h | h
          · subst h
            cases hfind : st.folders.find? (fun f => f.id == j) with
            | none => rw [hfind] at hnode; simp at hnode
            | some f0 =>
              have hmem := List.mem_of_find?_eq_some hfind
              have hid : f0.id = j := by simpa using List.find?_some hfind
              exact List.mem_map.mpr ⟨f0, hmem, hid⟩
          · exact ih ch h1 u st hfo j h
        · exact ih cs' h2 u st hcs j h

/-- Children query of node `i` after marking `i` itself: unchanged. -/
theorem marked_children_query (st : DB) (i now : Nat) (ch : List FTree)
    (hch : (st.folders.filter (fun f => f.parent_folder == some i)).map (fun f => f.id)
      = ch.map FTree.rootId)
    (hchnd : (st.folders.filter (fun f => f.parent_folder == some i)).all
      (fun f => !f.is_deleted) = true)
    (hiNotCh : i ∉ folderIdsF ch) :
    ((markFoldersByIds [i] now st.folders).filter
        (fun f => f.parent_folder == some i && !f.is_deleted)).map (fun f => f.id)
      = ch.map FTree.rootId := by
  unfold markFoldersByIds
  rw [filter_map_pointwise_mem st.folders _ _ _ ?_
    (fun a _ _ => by by_cases hm : a.id = i <;> simp [hm])]
  · have hfe : st.folders.filter (fun f => f.parent_folder == some i && !f.is_deleted)
        = st.folders.filter (fun f => f.parent_folder == some i) := by
      apply List.filter_congr
      intro a ha
      by_cases hp2 : (a.parent_folder == some i) = true
      · have hin : a ∈ st.folders.filter (fun f => f.parent_folder == some i) :=
          List.mem_filter.mpr ⟨ha, hp2⟩
        have := List.all_eq_true.mp hchnd a hin
        simp [hp2, this]
      · simp [hp2]
    rw [hfe, hch]
  · intro a ha
    by_cases hm : a.id = i
    · by_cases hp2 : (a.parent_folder == some i) = true
      · exfalso
        have hin : a ∈ st.folders.filter (fun f => f.parent_folder == some i) :=
          List.mem_filter.mpr ⟨ha, hp2⟩
        have hmm : a.id ∈ (st.folders.filter
            (fun f => f.parent_folder == some i)).map (fun f => f.id) :=
          List.mem_map.mpr ⟨a, hin, rfl⟩
        rw [hch] at hmm
        obtain ⟨r, hr, hrid⟩ := List.mem_map.mp hmm
        apply hiNotCh
        rw [← hm, ← hrid]
        exact rootId_mem_folderIdsF ch r hr
      · simp [hm, hp2]
    · simp [hm]

/-- Trash half of the cascade claim: on a `treeOk` subtree `T` with
duplicate-free ids, `move_folder_to_trash` succeeds and its effect is
exactly `treeTrashed`: all of `T`'s folders and files flipped to
deleted, and the expected trash rows (one per item, each carrying its
immediate parent) appended. -/
theorem move_folder_to_trash_eq (u now : Nat) (T : FTree) (st : DB) (f0 : FolderRec)
    (ht : treeOk u st T = true)
    (hndD : T.folderIds.Nodup)
    (hndE : T.fileIds.Nodup)
    (hf0 : st.folders.find? (fun f => f.id == T.rootId) = some f0) :
    move_folder_to_trash u T.rootId now st
      = (treeTrashed u now T f0.parent_folder st, OpResult.ok) := by
  cases T with
  | node i fl ch =>
    have hrid : FTree.rootId (FTree.node i fl ch) = i := rfl
    rw [hrid] at hf0
    rw [treeOk_iff] at ht
    obtain ⟨hnode, hch, hchnd, hfl, hnd, hfo⟩ := ht
    rw [hf0] at hnode
    have howner : (f0.owner == u) = true := ((Bool.and_eq_true _ _).mp hnode).1
    have hdel : f0.is_deleted = false := by
      have := ((Bool.and_eq_true _ _).mp hnode).2
      simpa using this
    have hfind : findOwnedFolderDel st u i false = some f0 :=
      find?_and_true (find?_and_true hf0 howner) (by simp [hdel])
    rw [folderIds_node] at hndD
    have hiNotCh : i ∉ folderIdsF ch := (List.nodup_cons.mp hndD).1
    have hndDch : (folderIdsF ch).Nodup := (List.nodup_cons.mp hndD).2
    rw [fileIds_node, List.nodup_append] at hndE
    obtain ⟨hndfl, hndEch, hdisflch⟩ := hndE
    -- the state handed to the recursion
    have hstX : trashFilesIn u now i
        (setFolderDeleted i true (some now)
          (addTrash (folderTrashRec u now i f0.parent_folder) st))
        = (⟨markFilesByIds fl st.files, markFoldersByIds [i] now st.folders,
            st.trash ++ [folderTrashRec u now i f0.parent_folder]
              ++ fl.map (fun x => fileTrashRec u now x i),
            st.profiles, st.blobs⟩ : DB) := by
      rw [setFolderDeleted_eq_mark]
      exact trashFilesIn_eq u now i _ fl hfl hnd
    -- length bookkeeping
    have hmem0 := List.mem_of_find?_eq_some hf0
    have hpos : 0 < st.folders.length := List.length_pos.mpr (List.ne_nil_of_mem hmem0)
    obtain ⟨L, hL⟩ : ∃ L, st.folders.length = L + 1 :=
      ⟨st.folders.length - 1, by omega⟩
    have hsubset : (FTree.node i fl ch).folderIds ⊆ st.folders.map (fun f => f.id) := by
      intro j hj
      have hfor1 : forestOk u st [FTree.node i fl ch] = true := by
        rw [forestOk_cons]
        refine ⟨?_, rfl⟩
        rw [treeOk_iff]
        exact ⟨by rw [hf0]; exact hnode, hch, hchnd, hfl, hnd, hfo⟩
      have hj1 : j ∈ folderIdsF [FTree.node i fl ch] := by
        rw [folderIdsF_cons, folderIdsF_nil, List.append_nil]
        exact hj
      exact folderIdsF_subset (folderIdsF [FTree.node i fl ch]).length
        [FTree.node i fl ch] le_rfl u st hfor1 j hj1
    have hcard : (FTree.node i fl ch).folderIds.length ≤ L + 1 := by
      have hnd2 : (FTree.node i fl ch).folderIds.Nodup := by
        rw [folderIds_node]
        exact hndD
      have hle := (List.subperm_of_subset hnd2 hsubset).length_le
      rw [List.length_map] at hle
      omega
    have hchlen : (folderIdsF ch).length ≤ L := by
      rw [folderIds_node, List.length_cons] at hcard
      omega
    have hdep' : ∀ c ∈ ch, c.depthT ≤ L + 1 := by
      intro c hc
      have h1 := depthT_le_depthF ch c hc
      have h2 := depthF_le_length (folderIdsF ch).length ch le_rfl
      omega
    have hfor3 : forestOk u (⟨markFilesByIds fl st.files,
        markFoldersByIds [i] now st.folders,
        st.trash ++ [folderTrashRec u now i f0.parent_folder]
          ++ fl.map (fun x => fileTrashRec u now x i),
        st.profiles, st.blobs⟩ : DB) ch = true := by
      exact forestOk_marked (folderIdsF ch).length ch le_rfl u now st [i] fl _ hfo
        (fun j hj => by
          simp only [List.mem_singleton]
          exact fun hji => hiNotCh (hji ▸ hj))
        (fun x hx => fun hxfl => (hdisflch hxfl) hx)
    have hlmark : (markFoldersByIds [i] now st.folders).length = L + 1 := by
      unfold markFoldersByIds
      rw [List.length_map]
      exact hL
    rw [hrid]
    simp only [move_folder_to_trash, hfind]
    rw [hstX]
    dsimp only
    rw [hlmark, delete_subfolders_succ]
    dsimp only
    rw [marked_children_query st i now ch hch hchnd hiNotCh]
    rw [trash_fold_eq (folderIdsF ch).length ch le_rfl u now i L _ hfor3 hndDch hndEch hdep']
    unfold cascadeResult treeTrashed
    dsimp only
    rw [markFilesByIds_append, markFoldersByIds_append, folderIds_node, fileIds_node,
      expRecsT_node]
    simp [List.append_assoc]

/-- `filter`-then-project across a pointwise modification that
*translates* the predicate (`p` on the modified row equals `q` on the
original row). -/
theorem filter_map_cross {α β : Type} (l : List α) (h : α → α) (p q : α → Bool) (g : α → β)
    (hp : ∀ a ∈ l, p (h a) = q a) (hg : ∀ a ∈ l, q a = true → g (h a) = g a) :
    ((l.map h).filter p).map g = (l.filter q).map g := by
  induction l with
  | nil => rfl
  | cons a as ih =>
    have hpa := hp a (by simp)
    have ihr := ih (fun x hx => hp x (by simp [hx])) (fun x hx => hg x (by simp [hx]))
    by_cases hc : q a = true
    · rw [List.map_cons, List.filter_cons_of_pos (hpa.trans hc), List.filter_cons_of_pos hc,
        List.map_cons, List.map_cons, hg a (by simp) hc, ihr]
    · rw [List.map_cons, List.filter_cons_of_neg, List.filter_cons_of_neg, ihr]
      · exact fun hcc => hc hcc
      · rw [hpa]
        exact fun hcc => hc hcc

/-- `rForestOk` is stable under un-marking folders/files whose ids are
disjoint from the forest, and any change to the trash table. -/
theorem rForestOk_unmarked (n : Nat) : ∀ (cs : List FTree), (folderIdsF cs).length ≤ n →
    ∀ (st : DB) (D E : List Nat) (tr : List TrashRec),
    rForestOk st cs = true →
    (∀ j ∈ folderIdsF cs, j ∉ D) →
    (∀ x ∈ fileIdsF cs, x ∉ E) →
    rForestOk { st with folders := unmarkFoldersByIds D st.folders,
                        files := unmarkFilesByIds E st.files, trash := tr } cs = true := by
  induction n with
  | zero =>
    intro cs hlen st D E tr hok hD hE
    cases cs with
    | nil => rfl
    | cons c cs' =>
      exfalso
      cases c with
      | node i fl ch => simp [folderIdsF_cons, folderIds_node] at hlen
  | succ m ih =>
    intro cs hlen st D E tr hok hD hE
    cases cs with
    | nil => rfl
    | cons c cs' =>
      cases c with
      | node i fl ch =>
        rw [rForestOk_cons] at hok
        obtain ⟨hc, hcs⟩ := hok
        rw [rTreeOk_iff] at hc
        obtain ⟨hnode, hch, hfl, hfo⟩ := hc
        have hids : folderIdsF (FTree.node i fl ch :: cs')
            = (i :: folderIdsF ch) ++ folderIdsF cs' := by
          rw [folderIdsF_cons, folderIds_node]
        have hfids : fileIdsF (FTree.node i fl ch :: cs')
            = (fl ++ fileIdsF ch) ++ fileIdsF cs' := by
          rw [fileIdsF_cons, fileIds_node]
        have hiD : i ∉ D := by
          apply hD
          rw [hids]
          simp
        have hlen1 : (folderIdsF ch).length ≤ m := by
          rw [hids] at hlen
          simp [List.length_append] at hlen
          omega
        have hlen2 : (folderIdsF cs').length ≤ m := by
          rw [hids] at hlen
          simp [List.length_append] at hlen
          omega
        rw [rForestOk_cons]
        constructor
        · rw [rTreeOk_iff]
          refine ⟨?_, ?_, ?_, ?_⟩
          · show (match (unmarkFoldersByIds D st.folders).find? (fun f => f.id == i) with
                  | some f => f.is_deleted
                  | none => false) = true
            have hfm : (unmarkFoldersByIds D st.folders).find? (fun f => f.id == i)
                = (st.folders.find? (fun f => f.id == i)).map
                    (fun f => if D.contains f.id then { f with is_deleted := false, deleted_at := none } else f) := by
              unfold unmarkFoldersByIds
              apply find?_map_comm
              intro a
              by_cases hm : a.id ∈ D <;> simp [hm]
            rw [hfm]
            cases hfind : st.folders.find? (fun f => f.id == i) with
            | none => rw [hfind] at hnode; simp at hnode
            | some f0 =>
              rw [hfind] at hnode
              have hid0 : f0.id = i := by simpa using List.find?_some hfind
              have hDc : ¬ f0.id ∈ D := by rw [hid0]; exact hiD
              simp only [Option.map_some']
              rw [if_neg (by simpa using hDc)]
              exact hnode
          · show ((unmarkFoldersByIds D st.folders).filter
                (fun f => f.parent_folder == some i && f.is_deleted)).map (fun f => f.id) = _
            unfold unmarkFoldersByIds
            rw [filter_map_pointwise_mem st.folders _ _ _ ?_
              (fun a _ _ => by by_cases hm : a.id ∈ D <;> simp [hm])]
            · exact hch
            · intro a ha
              by_cases hm : a.id ∈ D
              · by_cases hp2 : (a.parent_folder == some i && a.is_deleted) = true
                · exfalso
                  have hin : a ∈ st.folders.filter
                      (fun f => f.parent_folder == some i && f.is_deleted) :=
                    List.mem_filter.mpr ⟨ha, hp2⟩
                  have hmm : a.id ∈ (st.folders.filter
                      (fun f => f.parent_folder == some i && f.is_deleted)).map (fun f => f.id) :=
                    List.mem_map.mpr ⟨a, hin, rfl⟩
                  rw [hch] at hmm
                  obtain ⟨r, hr, hrid⟩ := List.mem_map.mp hmm
                  have : a.id ∈ folderIdsF ch := by
                    rw [← hrid]
                    exact rootId_mem_folderIdsF ch r hr
                  exact hD a.id (by rw [hids]; simp [this]) hm
                · have hpa2 : (a.parent_folder == some i && a.is_deleted) = false :=
                    Bool.eq_false_iff.mpr hp2
                  simp [hm, hpa2]
              · simp [hm]
          · show ((unmarkFilesByIds E st.files).filter
                (fun f => f.folder == some i && f.is_deleted)).map (fun f => f.id) = fl
            unfold unmarkFilesByIds
            rw [filter_map_pointwise_mem st.files _ _ _ ?_
              (fun a _ _ => by by_cases hm : a.id ∈ E <;> simp [hm])]
            · exact hfl
            · intro a ha
              by_cases hm : a.id ∈ E
              · by_cases hp2 : (a.folder == some i && a.is_deleted) = true
                · exfalso
                  have hin : a ∈ st.files.filter
                      (fun f => f.folder == some i && f.is_deleted) :=
                    List.mem_filter.mpr ⟨ha, hp2⟩
                  have hmm : a.id ∈ (st.files.filter
                      (fun f => f.folder == some i && f.is_deleted)).map (fun f => f.id) :=
                    List.mem_map.mpr ⟨a, hin, rfl⟩
                  rw [hfl] at hmm
                  exact hE a.id (by rw [hfids]; simp [hmm]) hm
                · have hpa2 : (a.folder == some i && a.is_deleted) = false :=
                    Bool.eq_false_iff.mpr hp2
                  simp [hm, hpa2]
              · simp [hm]
          · exact ih ch hlen1 st D E tr hfo
              (fun j hj => hD j (by rw [hids]; simp [hj]))
              (fun x hx => hE x (by rw [hfids]; simp [hx]))
        · exact ih cs' hlen2 st D E tr hcs
            (fun j hj => hD j (by rw [hids]; simp [hj]))
            (fun x hx => hE x (by rw [hfids]; simp [hx]))

/-- Unfolding `restore_subfolders_recursive` at positive fuel. -/
theorem restore_subfolders_succ (u fu parent : Nat) (st : DB) :
    restore_subfolders_recursive u (fu + 1) parent st
      = ((st.folders.filter (fun f => f.parent_folder == some parent && f.is_deleted)).map
          (fun f => f.id)).foldl (restoreStep u fu) st := rfl

/-- The per-file loop of the restore cascade over folder `i`, through
its snapshot: when the folder's *deleted* files are exactly `fl`, the
loop un-marks exactly them and removes their trash rows. -/
theorem restoreFilesIn_eq (u i : Nat) (st : DB) (fl : List Nat)
    (hq : (st.files.filter (fun f => f.folder == some i && f.is_deleted)).map (fun f => f.id) = fl) :
    restoreFilesIn u i st
      = { st with files := unmarkFilesByIds fl st.files,
                  trash := st.trash.filter (fun t => !(fileRefsPred u fl t)) } := by
  unfold restoreFilesIn
  rw [hq]
  exact restore_files_fold u fl st

/-- Conjunction of two subtree-reference filters is the filter of the
combined id sets. -/
theorem refs_append (u : Nat) (d1 e1 d2 e2 : List Nat) (t : TrashRec) :
    ((!(refsSubtree u d2 e2 t)) && (!(refsSubtree u d1 e1 t)))
      = (!(refsSubtree u (d1 ++ d2) (e1 ++ e2) t)) := by
  unfold refsSubtree
  cases htf : t.file with
  | none =>
    cases hto : t.folder with
    | none => by_cases hu : (t.user == u) = true <;> simp [hu]
    | some j =>
      by_cases hu : (t.user == u) = true <;>
        by_cases h1 : j ∈ d1 <;> by_cases h2 : j ∈ d2 <;> simp [hu, h1, h2]
  | some x =>
    cases hto : t.folder with
    | none =>
      by_cases hu : (t.user == u) = true <;>
        by_cases h1 : x ∈ e1 <;> by_cases h2 : x ∈ e2 <;> simp [hu, h1, h2]
    | some j =>
      by_cases hu : (t.user == u) = true <;>
        by_cases h1 : x ∈ e1 <;> by_cases h2 : x ∈ e2 <;>
          by_cases h3 : j ∈ d1 <;> by_cases h4 : j ∈ d2 <;> simp [hu, h1, h2, h3, h4]

/-- `fileRefsPred` is `refsSubtree` with no folder ids. -/
theorem fileRefsPred_eq_refs (u : Nat) (fl : List Nat) (t : TrashRec) :
    fileRefsPred u fl t = refsSubtree u [] fl t := by
  unfold fileRefsPred refsSubtree
  cases htf : t.file with
  | none =>
    by_cases hu : (t.user == u) = true <;> cases hto : t.folder <;> simp [hu]
  | some x =>
    by_cases hu : (t.user == u) = true <;> by_cases h1 : x ∈ fl <;>
      cases hto : t.folder <;> simp [hu, h1]

/-- The per-subfolder trash-delete predicate is `refsSubtree` with a
single folder id. -/
theorem folderPred_eq_refs (u i : Nat) (t : TrashRec) :
    (t.folder == some i && t.user == u) = refsSubtree u [i] [] t := by
  unfold refsSubtree
  cases htf : t.file with
  | none =>
    cases hto : t.folder with
    | none => by_cases hu : (t.user == u) = true <;> simp [hu]
    | some j =>
      by_cases hu : (t.user == u) = true <;> by_cases h1 : j = i <;> simp [hu, h1]
  | some x =>
    cases hto : t.folder with
    | none => by_cases hu : (t.user == u) = true <;> simp [hu]
    | some j =>
      by_cases hu : (t.user == u) = true <;> by_cases h1 : j = i <;> simp [hu, h1]

/-- Un-marking right after marking the same ids is just un-marking. -/
theorem unmark_mark_folders (D : List Nat) (now : Nat) (l : List FolderRec) :
    unmarkFoldersByIds D (markFoldersByIds D now l) = unmarkFoldersByIds D l := by
  unfold unmarkFoldersByIds markFoldersByIds
  rw [List.map_map]
  apply List.map_congr_left
  intro a _
  by_cases hm : a.id ∈ D <;> simp [hm]

/-- Un-marking right after marking the same file ids is un-marking. -/
theorem unmark_mark_files (E : List Nat) (l : List FileRec) :
    unmarkFilesByIds E (markFilesByIds E l) = unmarkFilesByIds E l := by
  unfold unmarkFilesByIds markFilesByIds
  rw [List.map_map]
  apply List.map_congr_left
  intro a _
  by_cases hm : a.id ∈ E <;> simp [hm]

/-- Structure of the rows the cascade creates: every row belongs to the
user and references either a folder of the forest (file field empty) or
a file of the forest (folder field empty). -/
theorem expRecsF_shape (n : Nat) : ∀ (cs : List FTree), (folderIdsF cs).length ≤ n →
    ∀ (u now parent : Nat) (r : TrashRec), r ∈ expRecsF u now cs parent →
      r.user = u ∧ ((∃ j, r.folder = some j ∧ r.file = none ∧ j ∈ folderIdsF cs)
        ∨ (∃ x, r.file = some x ∧ r.folder = none ∧ x ∈ fileIdsF cs)) := by
  induction n with
  | zero =>
    intro cs hlen u now parent r hr
    cases cs with
    | nil => rw [expRecsF_nil] at hr; exact absurd hr (List.not_mem_nil r)
    | cons c cs' =>
      exfalso
      cases c with
      | node i fl ch => simp [folderIdsF_cons, folderIds_node] at hlen
  | succ m ih =>
    intro cs hlen u now parent r hr
    cases cs with
    | nil => rw [expRecsF_nil] at hr; exact absurd hr (List.not_mem_nil r)
    | cons c cs' =>
      cases c with
      | node i fl ch =>
        have hids : folderIdsF (FTree.node i fl ch :: cs')
            = (i :: folderIdsF ch) ++ folderIdsF cs' := by
          rw [folderIdsF_cons, folderIds_node]
        have hfids : fileIdsF (FTree.node i fl ch :: cs')
            = (fl ++ fileIdsF ch) ++ fileIdsF cs' := by
          rw [fileIdsF_cons, fileIds_node]
        have hlen1 : (folderIdsF ch).length ≤ m := by
          rw [hids] at hlen
          simp [List.length_append] at hlen
          omega
        have hlen2 : (folderIdsF cs').length ≤ m := by
          rw [hids] at hlen
          simp [List.length_append] at hlen
          omega
        rw [expRecsF_cons, expRecsT_node] at hr
        rcases List.mem_append.mp hr with h1 | h1
        · rcases List.mem_cons.mp h1 with h2 | h2
          · subst h2
            refine ⟨rfl, Or.inl ⟨i, rfl, rfl, ?_⟩⟩
            rw [hids]
            simp
          · rcases List.mem_append.mp h2 with h3 | h3
            · obtain ⟨x, hx, hxe⟩ := List.mem_map.mp h3
              subst hxe
              refine ⟨rfl, Or.inr ⟨x, rfl, rfl, ?_⟩⟩
              rw [hfids]
              simp [hx]
            · obtain ⟨hu, hsh⟩ := ih ch hlen1 u now i r h3
              refine ⟨hu, ?_⟩
              rcases hsh with ⟨j, hj1, hj2, hj3⟩ | ⟨x, hx1, hx2, hx3⟩
              · exact Or.inl ⟨j, hj1, hj2, by rw [hids]; simp [hj3]⟩
              · exact Or.inr ⟨x, hx1, hx2, by rw [hfids]; simp [hx3]⟩
        · obtain ⟨hu, hsh⟩ := ih cs' hlen2 u now parent r h1
          refine ⟨hu, ?_⟩
          rcases hsh with ⟨j, hj1, hj2, hj3⟩ | ⟨x, hx1, hx2, hx3⟩
          · exact Or.inl ⟨j, hj1, hj2, by rw [hids]; simp [hj3]⟩
          · exact Or.inr ⟨x, hx1, hx2, by rw [hfids]; simp [hx3]⟩

/-- One trash row per item: the cascade creates as many rows as the
forest has folders plus files. -/
theorem expRecsF_length (n : Nat) : ∀ (cs : List FTree), (folderIdsF cs).length ≤ n →
    ∀ (u now parent : Nat),
    (expRecsF u now cs parent).length = (folderIdsF cs).length + (fileIdsF cs).length := by
  induction n with
  | zero =>
    intro cs hlen u now parent
    cases cs with
    | nil => rfl
    | cons c cs' =>
      exfalso
      cases c with
      | node i fl ch => simp [folderIdsF_cons, folderIds_node] at hlen
  | succ m ih =>
    intro cs hlen u now parent
    cases cs with
    | nil => rfl
    | cons c cs' =>
      cases c with
      | node i fl ch =>
        have hids : folderIdsF (FTree.node i fl ch :: cs')
            = (i :: folderIdsF ch) ++ folderIdsF cs' := by
          rw [folderIdsF_cons, folderIds_node]
        have hfids : fileIdsF (FTree.node i fl ch :: cs')
            = (fl ++ fileIdsF ch) ++ fileIdsF cs' := by
          rw [fileIdsF_cons, fileIds_node]
        have hlen1 : (folderIdsF ch).length ≤ m := by
          rw [hids] at hlen
          simp [List.length_append] at hlen
          omega
        have hlen2 : (folderIdsF cs').length ≤ m := by
          rw [hids] at hlen
          simp [List.length_append] at hlen
          omega
        rw [expRecsF_cons, expRecsT_node, hids, hfids]
        simp only [List.length_append, List.length_cons, List.length_map]
        rw [ih ch hlen1 u now i, ih cs' hlen2 u now parent]
        omega

/-- Per-node parent correctness of the cascade's rows: each folder row
records the folder's own parent pointer, each file row the containing
folder, as read from the database. -/
theorem expRecsF_parents (n : Nat) : ∀ (cs : List FTree), (folderIdsF cs).length ≤ n →
    ∀ (u now parent : Nat) (st : DB),
    forestOk u st cs = true →
    (∀ c ∈ cs, ∃ g ∈ st.folders, g.id = c.rootId ∧ g.parent_folder = some parent) →
    ∀ r ∈ expRecsF u now cs parent,
      (∀ j, r.folder = some j → ∃ g ∈ st.folders, g.id = j ∧ r.original_folder = g.parent_folder) ∧
      (∀ x, r.file = some x → ∃ fr ∈ st.files, fr.id = x ∧ r.original_folder = fr.folder) := by
  induction n with
  | zero =>
    intro cs hlen u now parent st hok hroots r hr
    cases cs with
    | nil => rw [expRecsF_nil] at hr; exact absurd hr (List.not_mem_nil r)
    | cons c cs' =>
      exfalso
      cases c with
      | node i fl ch => simp [folderIdsF_cons, folderIds_node] at hlen
  | succ m ih =>
    intro cs hlen u now parent st hok hroots r hr
    cases cs with
    | nil => rw [expRecsF_nil] at hr; exact absurd hr (List.not_mem_nil r)
    | cons c cs' =>
      cases c with
      | node i fl ch =>
        have hids : folderIdsF (FTree.node i fl ch :: cs')
            = (i :: folderIdsF ch) ++ folderIdsF cs' := by
          rw [folderIdsF_cons, folderIds_node]
        have hlen1 : (folderIdsF ch).length ≤ m := by
          rw [hids] at hlen
          simp [List.length_append] at hlen
          omega
        have hlen2 : (folderIdsF cs').length ≤ m := by
          rw [hids] at hlen
          simp [List.length_append] at hlen
          omega
        rw [forestOk_cons] at hok
        obtain ⟨hc, hcs⟩ := hok
        rw [treeOk_iff] at hc
        obtain ⟨hnode, hch, hchnd, hfl, hnd, hfo⟩ := hc
        obtain ⟨g0, hg0m, hg0id, hg0p⟩ := hroots (FTree.node i fl ch) (by simp)
        have hg0id' : g0.id = i := hg0id
        rw [expRecsF_cons, expRecsT_node] at hr
        rcases List.mem_append.mp hr with h1 | h1
        · rcases List.mem_cons.mp h1 with h2 | h2
          · subst h2
            constructor
            · intro j hj
              injection hj with hj
              subst hj
              exact ⟨g0, hg0m, hg0id', by
                show (some parent : Option Nat) = g0.parent_folder
                rw [hg0p]⟩
            · intro x hx
              exact absurd hx (by simp [folderTrashRec])
          · rcases List.mem_append.mp h2 with h3 | h3
            · obtain ⟨x, hx, hxe⟩ := List.mem_map.mp h3
              subst hxe
              constructor
              · intro j hj
                exact absurd hj (by simp [fileTrashRec])
              · intro y hy
                injection hy with hy
                subst hy
                have hxq : x ∈ (st.files.filter (fun f => f.folder == some i)).map
                    (fun f => f.id) := by rw [hfl]; exact hx
                obtain ⟨fr, hfrm, hfrid⟩ := List.mem_map.mp hxq
                obtain ⟨hfrmem, hfrfo⟩ := List.mem_filter.mp hfrm
                refine ⟨fr, hfrmem, hfrid, ?_⟩
                show (some i : Option Nat) = fr.folder
                have : fr.folder = some i := by simpa using hfrfo
                rw [this]
            · refine ih ch hlen1 u now i st hfo ?_ r h3
              intro c hcm
              have hrm : c.rootId ∈ (st.folders.filter
                  (fun f => f.parent_folder == some i)).map (fun f => f.id) := by
                rw [hch]
                exact List.mem_map.mpr ⟨c, hcm, rfl⟩
              obtain ⟨g, hgm, hgid⟩ := List.mem_map.mp hrm
              obtain ⟨hgmem, hgp⟩ := List.mem_filter.mp hgm
              exact ⟨g, hgmem, hgid, by simpa using hgp⟩
        · exact ih cs' hlen2 u now parent st hcs
            (fun c hcm => hroots c (by simp [hcm])) r h1

/-- After marking a superset `E` of a folder's file ids, the folder's
*deleted*-files query returns exactly the original file list. -/
theorem marked_files_query (files : List FileRec) (E fl : List Nat) (i : Nat)
    (hfl : (files.filter (fun f => f.folder == some i)).map (fun f => f.id) = fl)
    (hE : ∀ x ∈ fl, x ∈ E) :
    ((markFilesByIds E files).filter (fun f => f.folder == some i && f.is_deleted)).map
      (fun f => f.id) = fl := by
  unfold markFilesByIds
  have key := filter_map_cross files
    (fun f => if E.contains f.id then { f with is_deleted := true } else f)
    (fun f => f.folder == some i && f.is_deleted)
    (fun f => f.folder == some i)
    (fun f => f.id)
    (by
      intro a ha
      by_cases hq : (a.folder == some i) = true
      · have hmem : a.id ∈ fl := by
          rw [← hfl]
          exact List.mem_map.mpr ⟨a, List.mem_filter.mpr ⟨ha, hq⟩, rfl⟩
        have hmE : a.id ∈ E := hE _ hmem
        simp [hmE, hq]
      · by_cases hm : a.id ∈ E <;> simp [hm, hq])
    (fun a _ _ => by by_cases hm : a.id ∈ E <;> simp [hm])
  rw [key, hfl]

/-- The *deleted*-children query of node `i` after un-marking `i`
itself: unchanged. -/
theorem unmarked_children_query (folders : List FolderRec) (i : Nat) (ch : List FTree)
    (hch : (folders.filter (fun f => f.parent_folder == some i && f.is_deleted)).map
      (fun f => f.id) = ch.map FTree.rootId)
    (hiNotCh : i ∉ folderIdsF ch) :
    ((unmarkFoldersByIds [i] folders).filter
        (fun f => f.parent_folder == some i && f.is_deleted)).map (fun f => f.id)
      = ch.map FTree.rootId := by
  unfold unmarkFoldersByIds
  rw [filter_map_pointwise_mem folders _ _ _ ?_
    (fun a _ _ => by by_cases hm : a.id = i <;> simp [hm])]
  · exact hch
  · intro a ha
    by_cases hm : a.id = i
    · by_cases hp2 : (a.parent_folder == some i && a.is_deleted) = true
      · exfalso
        have hin : a ∈ folders.filter (fun f => f.parent_folder == some i && f.is_deleted) :=
          List.mem_filter.mpr ⟨ha, hp2⟩
        have hmm : a.id ∈ (folders.filter
            (fun f => f.parent_folder == some i && f.is_deleted)).map (fun f => f.id) :=
          List.mem_map.mpr ⟨a, hin, rfl⟩
        rw [hch] at hmm
        obtain ⟨r, hr, hrid⟩ := List.mem_map.mp hmm
        apply hiNotCh
        rw [← hm, ← hrid]
        exact rootId_mem_folderIdsF ch r hr
      · have hpa2 : (a.parent_folder == some i && a.is_deleted) = false :=
          Bool.eq_false_iff.mpr hp2
        simp [hm, hpa2]
    · simp [hm]

/-- The *deleted*-children query of node `i` in the trashed state after
the restore un-marked `i` itself: exactly the original children. -/
theorem restore_children_query (folders : List FolderRec) (D : List Nat) (now i : Nat)
    (ch : List FTree)
    (hch : (folders.filter (fun f => f.parent_folder == some i)).map (fun f => f.id)
      = ch.map FTree.rootId)
    (hD : ∀ j ∈ folderIdsF ch, j ∈ D)
    (hiNotCh : i ∉ folderIdsF ch) :
    ((unmarkFoldersByIds [i] (markFoldersByIds D now folders)).filter
        (fun f => f.parent_folder == some i && f.is_deleted)).map (fun f => f.id)
      = ch.map FTree.rootId := by
  unfold unmarkFoldersByIds markFoldersByIds
  rw [List.map_map]
  refine (filter_map_cross folders _ _ (fun f => f.parent_folder == some i) _ ?_ ?_).trans hch
  · intro a ha
    by_cases hq : (a.parent_folder == some i) = true
    · have hmem : a.id ∈ ch.map FTree.rootId := by
        rw [← hch]
        exact List.mem_map.mpr ⟨a, List.mem_filter.mpr ⟨ha, hq⟩, rfl⟩
      obtain ⟨r, hr, hrid⟩ := List.mem_map.mp hmem
      have haF : a.id ∈ folderIdsF ch := by
        rw [← hrid]
        exact rootId_mem_folderIdsF ch r hr
      have hmD : a.id ∈ D := hD _ haF
      have hne : ¬ a.id = i := fun hco => hiNotCh (hco ▸ haF)
      simp [hmD, hne, hq]
    · by_cases hne : a.id = i
      · subst hne
        by_cases hmD : a.id ∈ D <;> simp [hmD, hq]
      · by_cases hmD : a.id ∈ D <;> simp [hmD, hne, hq]
  · intro a ha hqa
    by_cases hne : a.id = i
    · subst hne
      by_cases hmD : a.id ∈ D <;> simp [hmD]
    · by_cases hmD : a.id ∈ D <;> simp [hmD, hne]

/-- After the cascade marks every folder and file of a `forestOk`
forest (possibly among others of the same user's other subtrees kept
disjoint here by taking supersets), the forest satisfies `rForestOk`:
the restore cascade's queries see exactly the original structure. -/
theorem rForestOk_of_marked (n : Nat) : ∀ (cs : List FTree), (folderIdsF cs).length ≤ n →
    ∀ (u now : Nat) (st : DB) (D E : List Nat) (tr : List TrashRec),
    forestOk u st cs = true →
    (∀ j ∈ folderIdsF cs, j ∈ D) →
    (∀ x ∈ fileIdsF cs, x ∈ E) →
    rForestOk { st with folders := markFoldersByIds D now st.folders,
                        files := markFilesByIds E st.files, trash := tr } cs = true := by
  induction n with
  | zero =>
    intro cs hlen u now st D E tr hok hD hE
    cases cs with
    | nil => rfl
    | cons c cs' =>
      exfalso
      cases c with
      | node i fl ch => simp [folderIdsF_cons, folderIds_node] at hlen
  | succ m ih =>
    intro cs hlen u now st D E tr hok hD hE
    cases cs with
    | nil => rfl
    | cons c cs' =>
      cases c with
      | node i fl ch =>
        rw [forestOk_cons] at hok
        obtain ⟨hc, hcs⟩ := hok
        rw [treeOk_iff] at hc
        obtain ⟨hnode, hch, hchnd, hfl, hnd, hfo⟩ := hc
        have hids : folderIdsF (FTree.node i fl ch :: cs')
            = (i :: folderIdsF ch) ++ folderIdsF cs' := by
          rw [folderIdsF_cons, folderIds_node]
        have hfids : fileIdsF (FTree.node i fl ch :: cs')
            = (fl ++ fileIdsF ch) ++ fileIdsF cs' := by
          rw [fileIdsF_cons, fileIds_node]
        have hiD : i ∈ D := hD i (by rw [hids]; simp)
        have hlen1 : (folderIdsF ch).length ≤ m := by
          rw [hids] at hlen
          simp [List.length_append] at hlen
          omega
        have hlen2 : (folderIdsF cs').length ≤ m := by
          rw [hids] at hlen
          simp [List.length_append] at hlen
          omega
        rw [rForestOk_cons]
        constructor
        · rw [rTreeOk_iff]
          refine ⟨?_, ?_, ?_, ?_⟩
          · show (match (markFoldersByIds D now st.folders).find? (fun f => f.id == i) with
                  | some f => f.is_deleted
                  | none => false) = true
            have hfm : (markFoldersByIds D now st.folders).find? (fun f => f.id == i)
                = (st.folders.find? (fun f => f.id == i)).map
                    (fun f => if D.contains f.id then
                      { f with is_deleted := true, deleted_at := some now } else f) := by
              unfold markFoldersByIds
              apply find?_map_comm
              intro a
              by_cases hm : a.id ∈ D <;> simp [hm]
            rw [hfm]
            cases hfind : st.folders.find? (fun f => f.id == i) with
            | none => rw [hfind] at hnode; simp at hnode
            | some f0 =>
              have hid0 : f0.id = i := by simpa using List.find?_some hfind
              have hDc : f0.id ∈ D := by rw [hid0]; exact hiD
              simp only [Option.map_some']
              rw [if_pos (by simpa using hDc)]
          · show ((markFoldersByIds D now st.folders).filter
                (fun f => f.parent_folder == some i && f.is_deleted)).map (fun f => f.id)
              = ch.map FTree.rootId
            unfold markFoldersByIds
            refine (filter_map_cross st.folders _ _ (fun f => f.parent_folder == some i) _
              ?_ ?_).trans hch
            · intro a ha
              by_cases hq : (a.parent_folder == some i) = true
              · have hmem : a.id ∈ ch.map FTree.rootId := by
                  rw [← hch]
                  exact List.mem_map.mpr ⟨a, List.mem_filter.mpr ⟨ha, hq⟩, rfl⟩
                obtain ⟨r, hr, hrid⟩ := List.mem_map.mp hmem
                have haF : a.id ∈ folderIdsF ch := by
                  rw [← hrid]
                  exact rootId_mem_folderIdsF ch r hr
                have hmD : a.id ∈ D := hD _ (by rw [hids]; simp [haF])
                simp [hmD, hq]
              · by_cases hmD : a.id ∈ D <;> simp [hmD, hq]
            · intro a _ _
              by_cases hmD : a.id ∈ D <;> simp [hmD]
          · show ((markFilesByIds E st.files).filter
                (fun f => f.folder == some i && f.is_deleted)).map (fun f => f.id) = fl
            exact marked_files_query st.files E fl i hfl
              (fun x hx => hE x (by rw [hfids]; simp [hx]))
          · exact ih ch hlen1 u now st D E tr hfo
              (fun j hj => hD j (by rw [hids]; simp [hj]))
              (fun x hx => hE x (by rw [hfids]; simp [hx]))
        · exact ih cs' hlen2 u now st D E tr hcs
            (fun j hj => hD j (by rw [hids]; simp [hj]))
            (fun x hx => hE x (by rw [hfids]; simp [hx]))

/-- The two per-node trash deletions (folder row, then file rows)
combine into one subtree-reference filter. -/
theorem refs_node_combine (u i : Nat) (fl : List Nat) (t : TrashRec) :
    ((!(fileRefsPred u fl t)) && (!(t.folder == some i && t.user == u)))
      = (!(refsSubtree u [i] fl t)) := by
  rw [fileRefsPred_eq_refs, folderPred_eq_refs, refs_append]
  simp

/-- `refsSubtree` with empty id sets holds of no row. -/
theorem refs_nil_false (u : Nat) (t : TrashRec) : refsSubtree u [] [] t = false := by
  unfold refsSubtree
  cases htf : t.file <;> cases hto : t.folder <;>
    by_cases hu : (t.user == u) = true <;> simp [hu]

/-- Central lemma for the restore cascade: folding `restoreStep` over
the roots of a forest of `rTreeOk` subtrees un-marks exactly the
forest's folders and files and removes exactly the trash rows of user
`u` referencing them, provided ids are duplicate-free and the fuel
dominates the depth. -/
theorem restore_fold_eq (n : Nat) : ∀ (cs : List FTree), (folderIdsF cs).length ≤ n →
    ∀ (u fuel : Nat) (st : DB),
    rForestOk st cs = true →
    (folderIdsF cs).Nodup →
    (fileIdsF cs).Nodup →
    (∀ c ∈ cs, c.depthT ≤ fuel + 1) →
    (cs.map FTree.rootId).foldl (restoreStep u fuel) st = restoreResult u cs st := by
  induction n with
  | zero =>
    intro cs hlen u fuel st hok hndD hndE hdep
    cases cs with
    | nil =>
      show st = restoreResult u [] st
      unfold restoreResult
      rw [folderIdsF_nil, fileIdsF_nil, unmarkFoldersByIds_nil, unmarkFilesByIds_nil]
      rw [List.filter_eq_self.mpr (fun t _ => by rw [refs_nil_false]; rfl)]
    | cons c cs' =>
      exfalso
      cases c with
      | node i fl ch => simp [folderIdsF_cons, folderIds_node] at hlen
  | succ m ih =>
    intro cs hlen u fuel st hok hndD hndE hdep
    cases cs with
    | nil =>
      show st = restoreResult u [] st
      unfold restoreResult
      rw [folderIdsF_nil, fileIdsF_nil, unmarkFoldersByIds_nil, unmarkFilesByIds_nil]
      rw [List.filter_eq_self.mpr (fun t _ => by rw [refs_nil_false]; rfl)]
    | cons c cs' =>
      cases c with
      | node i fl ch =>
        have hids : folderIdsF (FTree.node i fl ch :: cs')
            = (i :: folderIdsF ch) ++ folderIdsF cs' := by
          rw [folderIdsF_cons, folderIds_node]
        have hfids : fileIdsF (FTree.node i fl ch :: cs')
            = (fl ++ fileIdsF ch) ++ fileIdsF cs' := by
          rw [fileIdsF_cons, fileIds_node]
        rw [rForestOk_cons] at hok
        obtain ⟨hc, hcs⟩ := hok
        rw [rTreeOk_iff] at hc
        obtain ⟨hnode, hch, hfl, hfo⟩ := hc
        rw [hids] at hndD
        rw [hfids] at hndE
        rw [List.nodup_append] at hndD hndE
        obtain ⟨hndD1, hndD2, hdisD⟩ := hndD
        obtain ⟨hndE1, hndE2, hdisE⟩ := hndE
        have hiNotCh : i ∉ folderIdsF ch := (List.nodup_cons.mp hndD1).1
        have hndDch : (folderIdsF ch).Nodup := (List.nodup_cons.mp hndD1).2
        rw [List.nodup_append] at hndE1
        obtain ⟨hndfl, hndEch, hdisflch⟩ := hndE1
        have hlen1 : (folderIdsF ch).length ≤ m := by
          rw [hids] at hlen
          simp [List.length_append] at hlen
          omega
        have hlen2 : (folderIdsF cs').length ≤ m := by
          rw [hids] at hlen
          simp [List.length_append] at hlen
          omega
        have hdepn := hdep (FTree.node i fl ch) (by simp)
        rw [depthT_node] at hdepn
        have hS3 : restoreFilesIn u i
            (removeTrashWhere (fun t => t.folder == some i && t.user == u)
              (setFolderDeleted i false none st))
            = (⟨unmarkFilesByIds fl st.files, unmarkFoldersByIds [i] st.folders,
                (st.trash.filter (fun t => !(t.folder == some i && t.user == u))).filter
                  (fun t => !(fileRefsPred u fl t)),
                st.profiles, st.blobs⟩ : DB) := by
          rw [setFolderDeleted_eq_unmark]
          exact restoreFilesIn_eq u i _ fl hfl
        have htq : (st.trash.filter (fun t => !(t.folder == some i && t.user == u))).filter
              (fun t => !(fileRefsPred u fl t))
            = st.trash.filter (fun t => !(refsSubtree u [i] fl t)) := by
          rw [List.filter_filter]
          exact List.filter_congr (fun t _ => refs_node_combine u i fl t)
        have hstep : restoreStep u fuel st i
            = (⟨unmarkFilesByIds (fl ++ fileIdsF ch) st.files,
                unmarkFoldersByIds ([i] ++ folderIdsF ch) st.folders,
                st.trash.filter (fun t =>
                  !(refsSubtree u ([i] ++ folderIdsF ch) (fl ++ fileIdsF ch) t)),
                st.profiles, st.blobs⟩ : DB) := by
          unfold restoreStep
          rw [hS3, htq]
          cases fuel with
          | zero =>
            have hch0 : ch = [] := by
              cases ch with
              | nil => rfl
              | cons d ds =>
                exfalso
                have hd := depthT_le_depthF (d :: ds) d (by simp)
                cases d with
                | node j fl2 ch2 =>
                  rw [depthT_node] at hd
                  omega
            subst hch0
            show (⟨unmarkFilesByIds fl st.files, unmarkFoldersByIds [i] st.folders,
                st.trash.filter (fun t => !(refsSubtree u [i] fl t)),
                st.profiles, st.blobs⟩ : DB) = _
            rw [folderIdsF_nil, fileIdsF_nil]
            simp
          | succ fu =>
            rw [restore_subfolders_succ]
            dsimp only
            rw [unmarked_children_query st.folders i ch hch hiNotCh]
            have hfor3 : rForestOk (⟨unmarkFilesByIds fl st.files,
                unmarkFoldersByIds [i] st.folders,
                st.trash.filter (fun t => !(refsSubtree u [i] fl t)),
                st.profiles, st.blobs⟩ : DB) ch = true := by
              exact rForestOk_unmarked (folderIdsF ch).length ch le_rfl st [i] fl _ hfo
                (fun j hj => by
                  simp only [List.mem_singleton]
                  exact fun hji => hiNotCh (hji ▸ hj))
                (fun x hx => fun hxfl => (hdisflch hxfl) hx)
            have hdep' : ∀ c' ∈ ch, c'.depthT ≤ fu + 1 := by
              intro c' hc'
              have h1 := depthT_le_depthF ch c' hc'
              omega
            rw [ih ch hlen1 u fu _ hfor3 hndDch hndEch hdep']
            unfold restoreResult
            dsimp only
            rw [unmarkFoldersByIds_append, unmarkFilesByIds_append]
            rw [List.filter_filter]
            rw [List.filter_congr (fun t _ =>
              refs_append u [i] fl (folderIdsF ch) (fileIdsF ch) t)]
        rw [List.map_cons]
        show (FTree.rootId (FTree.node i fl ch) :: cs'.map FTree.rootId).foldl
          (restoreStep u fuel) st = _
        rw [List.foldl_cons]
        show (cs'.map FTree.rootId).foldl (restoreStep u fuel)
          (restoreStep u fuel st i) = _
        rw [hstep]
        have hforS : rForestOk (⟨unmarkFilesByIds (fl ++ fileIdsF ch) st.files,
                unmarkFoldersByIds ([i] ++ folderIdsF ch) st.folders,
                st.trash.filter (fun t =>
                  !(refsSubtree u ([i] ++ folderIdsF ch) (fl ++ fileIdsF ch) t)),
                st.profiles, st.blobs⟩ : DB) cs' = true := by
          exact rForestOk_unmarked (folderIdsF cs').length cs' le_rfl st
            ([i] ++ folderIdsF ch) (fl ++ fileIdsF ch) _ hcs
            (fun j hj => by
              intro hjm
              rcases List.mem_append.mp hjm with h1 | h1
              · rcases List.mem_singleton.mp h1 with rfl
                exact hdisD (by simp) hj
              · exact hdisD (by simp [h1]) hj)
            (fun x hx => fun hxm => hdisE hxm hx)
        have hdep2 : ∀ c' ∈ cs', c'.depthT ≤ fuel + 1 := fun c' hc' => hdep c' (by simp [hc'])
        rw [ih cs' hlen2 u fuel _ hforS hndD2 hndE2 hdep2]
        unfold restoreResult
        dsimp only
        rw [unmarkFoldersByIds_append, unmarkFilesByIds_append]
        rw [List.filter_filter]
        rw [List.filter_congr (fun t _ =>
          refs_append u ([i] ++ folderIdsF ch) (fl ++ fileIdsF ch)
            (folderIdsF cs') (fileIdsF cs') t)]
        rw [hids, hfids]
        simp [List.append_assoc]

/-- Shrinking the folder id set preserves non-reference. -/
theorem refs_false_sub (u : Nat) (d1 d2 e : List Nat) (t : TrashRec)
    (hsub : ∀ j ∈ d1, j ∈ d2) (h : refsSubtree u d2 e t = false) :
    refsSubtree u d1 e t = false := by
  unfold refsSubtree at h ⊢
  cases htf : t.file with
  | none =>
    cases hto : t.folder with
    | none => by_cases hu : (t.user == u) = true <;> simp [hu]
    | some j =>
      rw [htf, hto] at h
      by_cases hu : (t.user == u) = true
      · by_cases h1 : j ∈ d1
        · exact absurd h (by simp [hu, hsub j h1])
        · simp [hu, h1]
      · simp [hu]
  | some x =>
    cases hto : t.folder with
    | none =>
      rw [htf, hto] at h
      by_cases hu : (t.user == u) = true
      · by_cases h1 : x ∈ e
        · exact absurd h (by simp [hu, h1])
        · simp [hu, h1]
      · simp [hu]
    | some j =>
      rw [htf, hto] at h
      by_cases hu : (t.user == u) = true
      · by_cases h1 : x ∈ e
        · exact absurd h (by simp [hu, h1])
        · by_cases h2 : j ∈ d1
          · exact absurd h (by simp [hu, hsub j h2])
          · simp [hu, h1, h2]
      · simp [hu]

/-- The root's file-loop filter and the children's subtree filter
combine into one subtree filter. -/
theorem refs_combine2 (u : Nat) (fl chF chE : List Nat) (t : TrashRec) :
    ((!(refsSubtree u chF chE t)) && (!(fileRefsPred u fl t)))
      = (!(refsSubtree u chF (fl ++ chE) t)) := by
  rw [fileRefsPred_eq_refs]
  have h := refs_append u [] fl chF chE t
  simpa using h

/-- Restore half of the cascade claim: on the state `move_folder_to_trash`
produced from a `treeOk` subtree `T` (no pre-existing trash row
referencing the subtree), `restore_folder` succeeds, un-marks exactly
`T`'s folders and files, and leaves the trash table exactly as it was
before the folder was trashed. -/
theorem restore_folder_eq (u now : Nat) (T : FTree) (st : DB) (f0 : FolderRec)
    (ht : treeOk u st T = true)
    (hndD : T.folderIds.Nodup)
    (hndE : T.fileIds.Nodup)
    (hf0 : st.folders.find? (fun f => f.id == T.rootId) = some f0)
    (hclean : ∀ t ∈ st.trash, refsSubtree u T.folderIds T.fileIds t = false) :
    restore_folder u T.rootId (treeTrashed u now T f0.parent_folder st)
      = ((⟨unmarkFilesByIds T.fileIds st.files, unmarkFoldersByIds T.folderIds st.folders,
           st.trash, st.profiles, st.blobs⟩ : DB), OpResult.ok) := by
  cases T with
  | node i fl ch =>
    have hrid : FTree.rootId (FTree.node i fl ch) = i := rfl
    rw [hrid] at hf0
    have hDq : (FTree.node i fl ch).folderIds = i :: folderIdsF ch := folderIds_node i fl ch
    have hEq : (FTree.node i fl ch).fileIds = fl ++ fileIdsF ch := fileIds_node i fl ch
    rw [treeOk_iff] at ht
    obtain ⟨hnode, hch, hchnd, hfl, hnd, hfo⟩ := ht
    rw [hf0] at hnode
    have howner : (f0.owner == u) = true := ((Bool.and_eq_true _ _).mp hnode).1
    have hiNotCh : i ∉ folderIdsF ch := by
      rw [hDq] at hndD
      exact (List.nodup_cons.mp hndD).1
    have hndDch : (folderIdsF ch).Nodup := by
      rw [hDq] at hndD
      exact (List.nodup_cons.mp hndD).2
    have hndE' := hndE
    rw [hEq, List.nodup_append] at hndE'
    obtain ⟨hndfl, hndEch, hdisflch⟩ := hndE'
    have hid0 : f0.id = i := by simpa using List.find?_some hf0
    -- the root's marked row
    have hfindT : (markFoldersByIds (FTree.node i fl ch).folderIds now st.folders).find?
        (fun f => f.id == i)
        = some { f0 with is_deleted := true, deleted_at := some now } := by
      unfold markFoldersByIds
      rw [find?_map_comm st.folders _ _
        (fun a => by
          by_cases hm : a.id ∈ (FTree.node i fl ch).folderIds <;> simp [hm]), hf0]
      have hmem : f0.id ∈ (FTree.node i fl ch).folderIds := by
        rw [hid0, hDq]
        simp
      simp [hmem]
    have hfindO : findOwnedFolderDel (treeTrashed u now (FTree.node i fl ch)
          f0.parent_folder st) u i true
        = some { f0 with is_deleted := true, deleted_at := some now } := by
      unfold findOwnedFolderDel treeTrashed
      exact find?_and_true (find?_and_true hfindT howner) (by simp)
    -- the root's trash row is the unique match
    have hrootNotSt : ∀ t ∈ st.trash, (t.folder == some i && t.user == u) = false := by
      intro t htm
      by_cases hp : (t.folder == some i && t.user == u) = true
      · exfalso
        obtain ⟨hfo2, hu2⟩ := (Bool.and_eq_true _ _).mp hp
        have hfoe : t.folder = some i := by simpa using hfo2
        have : refsSubtree u (FTree.node i fl ch).folderIds
            (FTree.node i fl ch).fileIds t = true := by
          unfold refsSubtree
          rw [hfoe, hDq]
          cases htf : t.file <;> simp [hu2]
        rw [hclean t htm] at this
        exact Bool.false_ne_true this
      · exact Bool.eq_false_iff.mpr hp
    have hgut : getUniqueTrash (treeTrashed u now (FTree.node i fl ch) f0.parent_folder st)
          (fun t => t.folder == some i && t.user == u)
        = some (folderTrashRec u now i f0.parent_folder) := by
      unfold getUniqueTrash treeTrashed
      dsimp only
      rw [List.filter_append]
      rw [List.filter_eq_nil.mpr (fun t htm => by
        rw [hrootNotSt t htm]
        exact Bool.false_ne_true)]
      rw [expRecsT_node, List.filter_cons_of_pos (by simp [folderTrashRec])]
      rw [List.filter_eq_nil.mpr ?_]
      · rfl
      · intro r hr
        rcases List.mem_append.mp hr with h1 | h1
        · obtain ⟨x, _, hxe⟩ := List.mem_map.mp h1
          subst hxe
          simp [fileTrashRec]
        · obtain ⟨hu2, hsh⟩ := expRecsF_shape (folderIdsF ch).length ch le_rfl u now i r h1
          rcases hsh with ⟨j, hj1, _, hj3⟩ | ⟨x, _, hx2, _⟩
          · intro hcon
            obtain ⟨hfo2, _⟩ := (Bool.and_eq_true _ _).mp hcon
            rw [hj1] at hfo2
            have : j = i := by simpa using hfo2
            exact hiNotCh (this ▸ hj3)
          · intro hcon
            obtain ⟨hfo2, _⟩ := (Bool.and_eq_true _ _).mp hcon
            rw [hx2] at hfo2
            simp at hfo2
    -- fuel bookkeeping (as in the trash half)
    have hmem0 := List.mem_of_find?_eq_some hf0
    have hpos : 0 < st.folders.length := List.length_pos.mpr (List.ne_nil_of_mem hmem0)
    obtain ⟨L, hL⟩ : ∃ L, st.folders.length = L + 1 :=
      ⟨st.folders.length - 1, by omega⟩
    have hfor1 : forestOk u st [FTree.node i fl ch] = true := by
      rw [forestOk_cons]
      refine ⟨?_, rfl⟩
      rw [treeOk_iff]
      exact ⟨by rw [hf0]; exact hnode, hch, hchnd, hfl, hnd, hfo⟩
    have hsubset : (FTree.node i fl ch).folderIds ⊆ st.folders.map (fun f => f.id) := by
      intro j hj
      have hj1 : j ∈ folderIdsF [FTree.node i fl ch] := by
        rw [folderIdsF_cons, folderIdsF_nil, List.append_nil]
        exact hj
      exact folderIdsF_subset (folderIdsF [FTree.node i fl ch]).length
        [FTree.node i fl ch] le_rfl u st hfor1 j hj1
    have hcard : (FTree.node i fl ch).folderIds.length ≤ L + 1 := by
      have hle := (List.subperm_of_subset hndD hsubset).length_le
      rw [List.length_map] at hle
      omega
    have hchlen : (folderIdsF ch).length ≤ L := by
      rw [hDq, List.length_cons] at hcard
      omega
    have hdep' : ∀ c ∈ ch, c.depthT ≤ L + 1 := by
      intro c hc
      have h1 := depthT_le_depthF ch c hc
      have h2 := depthF_le_length (folderIdsF ch).length ch le_rfl
      omega
    -- evaluate the view body
    rw [hrid]
    simp only [restore_folder, hfindO, hgut]
    have hS1 : setFolderDeleted i false none
        (treeTrashed u now (FTree.node i fl ch) f0.parent_folder st)
        = (⟨markFilesByIds (FTree.node i fl ch).fileIds st.files,
            unmarkFoldersByIds [i]
              (markFoldersByIds (FTree.node i fl ch).folderIds now st.folders),
            st.trash ++ expRecsT u now (FTree.node i fl ch) f0.parent_folder,
            st.profiles, st.blobs⟩ : DB) := by
      rw [setFolderDeleted_eq_unmark]
      rfl
    have hqM : ((markFilesByIds (FTree.node i fl ch).fileIds st.files).filter
        (fun f => f.folder == some i && f.is_deleted)).map (fun f => f.id) = fl :=
      marked_files_query st.files (FTree.node i fl ch).fileIds fl i hfl
        (fun x hx => by rw [hEq]; simp [hx])
    have hS2 : restoreFilesIn u i
        (⟨markFilesByIds (FTree.node i fl ch).fileIds st.files,
          unmarkFoldersByIds [i]
            (markFoldersByIds (FTree.node i fl ch).folderIds now st.folders),
          st.trash ++ expRecsT u now (FTree.node i fl ch) f0.parent_folder,
          st.profiles, st.blobs⟩ : DB)
        = (⟨unmarkFilesByIds fl (markFilesByIds (FTree.node i fl ch).fileIds st.files),
            unmarkFoldersByIds [i]
              (markFoldersByIds (FTree.node i fl ch).folderIds now st.folders),
            (st.trash ++ expRecsT u now (FTree.node i fl ch) f0.parent_folder).filter
              (fun t => !(fileRefsPred u fl t)),
            st.profiles, st.blobs⟩ : DB) := by
      exact restoreFilesIn_eq u i _ fl hqM
    rw [hS1, hS2]
    dsimp only
    have hlen3 : (unmarkFoldersByIds [i]
        (markFoldersByIds (FTree.node i fl ch).folderIds now st.folders)).length = L + 1 := by
      unfold unmarkFoldersByIds markFoldersByIds
      rw [List.length_map, List.length_map]
      exact hL
    rw [hlen3, restore_subfolders_succ]
    dsimp only
    rw [restore_children_query st.folders (FTree.node i fl ch).folderIds now i ch hch
      (fun j hj => by rw [hDq]; simp [hj]) hiNotCh]
    have hforM : rForestOk (⟨markFilesByIds (FTree.node i fl ch).fileIds st.files,
        markFoldersByIds (FTree.node i fl ch).folderIds now st.folders,
        [], st.profiles, st.blobs⟩ : DB) ch = true := by
      exact rForestOk_of_marked (folderIdsF ch).length ch le_rfl u now st
        (FTree.node i fl ch).folderIds (FTree.node i fl ch).fileIds [] hfo
        (fun j hj => by rw [hDq]; simp [hj])
        (fun x hx => by rw [hEq]; simp [hx])
    have hfor3 : rForestOk (⟨unmarkFilesByIds fl
          (markFilesByIds (FTree.node i fl ch).fileIds st.files),
        unmarkFoldersByIds [i]
          (markFoldersByIds (FTree.node i fl ch).folderIds now st.folders),
        (st.trash ++ expRecsT u now (FTree.node i fl ch) f0.parent_folder).filter
          (fun t => !(fileRefsPred u fl t)),
        st.profiles, st.blobs⟩ : DB) ch = true := by
      exact rForestOk_unmarked (folderIdsF ch).length ch le_rfl
        (⟨markFilesByIds (FTree.node i fl ch).fileIds st.files,
          markFoldersByIds (FTree.node i fl ch).folderIds now st.folders,
          [], st.profiles, st.blobs⟩ : DB) [i] fl _ hforM
        (fun j hj => by
          simp only [List.mem_singleton]
          exact fun hji => hiNotCh (hji ▸ hj))
        (fun x hx => fun hxfl => (hdisflch hxfl) hx)
    rw [restore_fold_eq (folderIdsF ch).length ch le_rfl u L _ hfor3 hndDch hndEch hdep']
    unfold restoreResult
    dsimp only
    -- collapse the folder and file maps
    rw [unmarkFoldersByIds_append, unmarkFilesByIds_append]
    rw [show ([i] ++ folderIdsF ch) = (FTree.node i fl ch).folderIds from by
      rw [hDq, List.singleton_append]]
    rw [show (fl ++ fileIdsF ch) = (FTree.node i fl ch).fileIds from by rw [hEq]]
    rw [unmark_mark_folders, unmark_mark_files]
    -- collapse the trash filters
    rw [List.filter_filter]
    rw [List.filter_congr (fun t _ =>
      refs_combine2 u fl (folderIdsF ch) (fileIdsF ch) t)]
    rw [List.filter_append]
    have hkeep : ∀ t ∈ st.trash,
        (!(refsSubtree u (folderIdsF ch) (fl ++ fileIdsF ch) t)) = true := by
      intro t htm
      have h2 := hclean t htm
      rw [hEq] at h2
      rw [refs_false_sub u (folderIdsF ch) (FTree.node i fl ch).folderIds
        (fl ++ fileIdsF ch) t (fun j hj => by
          rw [hDq]
          simp [hj]) h2]
      rfl
    rw [List.filter_eq_self.mpr hkeep]
    have hrec : (expRecsT u now (FTree.node i fl ch) f0.parent_folder).filter
        (fun t => !(refsSubtree u (folderIdsF ch) (fl ++ fileIdsF ch) t))
        = [folderTrashRec u now i f0.parent_folder] := by
      rw [expRecsT_node]
      rw [List.filter_cons_of_pos (by
        show (!(refsSubtree u (folderIdsF ch) (fl ++ fileIdsF ch)
          (folderTrashRec u now i f0.parent_folder))) = true
        have : refsSubtree u (folderIdsF ch) (fl ++ fileIdsF ch)
            (folderTrashRec u now i f0.parent_folder) = false := by
          unfold refsSubtree folderTrashRec
          simp [hiNotCh]
        rw [this]
        rfl)]
      rw [List.filter_eq_nil.mpr ?_]
      · intro r hr
        rcases List.mem_append.mp hr with h1 | h1
        · obtain ⟨x, hx, hxe⟩ := List.mem_map.mp h1
          subst hxe
          have : refsSubtree u (folderIdsF ch) (fl ++ fileIdsF ch)
              (fileTrashRec u now x i) = true := by
            unfold refsSubtree fileTrashRec
            simp [hx]
          intro hcon
          rw [this] at hcon
          simp at hcon
        · obtain ⟨hu2, hsh⟩ := expRecsF_shape (folderIdsF ch).length ch le_rfl u now i r h1
          have : refsSubtree u (folderIdsF ch) (fl ++ fileIdsF ch) r = true := by
            unfold refsSubtree
            rcases hsh with ⟨j, hj1, hj2, hj3⟩ | ⟨x, hx1, hx2, hx3⟩
            · rw [hj1, hj2]
              simp [hu2, hj3]
            · rw [hx1, hx2]
              simp [hu2, hx3]
          intro hcon
          rw [this] at hcon
          simp at hcon
    rw [hrec]
    -- erase the root row
    have hrootNotMem : folderTrashRec u now i f0.parent_folder ∉ st.trash := by
      intro hmem
      have h2 := hclean _ hmem
      have : refsSubtree u (FTree.node i fl ch).folderIds
          (FTree.node i fl ch).fileIds (folderTrashRec u now i f0.parent_folder) = true := by
        unfold refsSubtree folderTrashRec
        rw [hDq]
        simp
      rw [h2] at this
      exact Bool.false_ne_true this
    unfold eraseTrash
    dsimp only
    rw [List.erase_append_right _ hrootNotMem, List.erase_cons_head, List.append_nil]

/-- Tree-level row count: one trash row per folder plus one per file. -/
theorem expRecsT_length (u now : Nat) (T : FTree) (p : Option Nat) :
    (expRecsT u now T p).length = T.folderIds.length + T.fileIds.length := by
  cases T with
  | node i fl ch =>
    rw [expRecsT_node, folderIds_node, fileIds_node]
    simp only [List.length_cons, List.length_append, List.length_map]
    rw [expRecsF_length (folderIdsF ch).length ch le_rfl u now i]
    omega

/-- Tree-level parent correctness of the cascade's rows. -/
theorem expRecsT_parents (u now : Nat) (T : FTree) (st : DB) (f0 : FolderRec)
    (ht : treeOk u st T = true)
    (hf0 : st.folders.find? (fun f => f.id == T.rootId) = some f0) :
    ∀ r ∈ expRecsT u now T f0.parent_folder,
      (∀ j, r.folder = some j → ∃ g ∈ st.folders, g.id = j ∧ r.original_folder = g.parent_folder) ∧
      (∀ x, r.file = some x → ∃ fr ∈ st.files, fr.id = x ∧ r.original_folder = fr.folder) := by
  cases T with
  | node i fl ch =>
    have hrid : FTree.rootId (FTree.node i fl ch) = i := rfl
    rw [hrid] at hf0
    rw [treeOk_iff] at ht
    obtain ⟨hnode, hch, hchnd, hfl, hnd, hfo⟩ := ht
    have hid0 : f0.id = i := by simpa using List.find?_some hf0
    have hmem0 := List.mem_of_find?_eq_some hf0
    intro r hr
    rw [expRecsT_node] at hr
    rcases List.mem_cons.mp hr with h2 | h2
    · subst h2
      constructor
      · intro j hj
        injection hj with hj
        subst hj
        exact ⟨f0, hmem0, hid0, rfl⟩
      · intro x hx
        exact absurd hx (by simp [folderTrashRec])
    · rcases List.mem_append.mp h2 with h3 | h3
      · obtain ⟨x, hx, hxe⟩ := List.mem_map.mp h3
        subst hxe
        constructor
        · intro j hj
          exact absurd hj (by simp [fileTrashRec])
        · intro y hy
          injection hy with hy
          subst hy
          have hxq : x ∈ (st.files.filter (fun f => f.folder == some i)).map
              (fun f => f.id) := by rw [hfl]; exact hx
          obtain ⟨fr, hfrm, hfrid⟩ := List.mem_map.mp hxq
          obtain ⟨hfrmem, hfrfo⟩ := List.mem_filter.mp hfrm
          refine ⟨fr, hfrmem, hfrid, ?_⟩
          show (some i : Option Nat) = fr.folder
          have : fr.folder = some i := by simpa using hfrfo
          rw [this]
      · refine expRecsF_parents (folderIdsF ch).length ch le_rfl u now i st hfo ?_ r h3
        intro c hcm
        have hrm : c.rootId ∈ (st.folders.filter
            (fun f => f.parent_folder == some i)).map (fun f => f.id) := by
          rw [hch]
          exact List.mem_map.mpr ⟨c, hcm, rfl⟩
        obtain ⟨g, hgm, hgid⟩ := List.mem_map.mp hrm
        obtain ⟨hgmem, hgp⟩ := List.mem_filter.mp hgm
        exact ⟨g, hgmem, hgid, by simpa using hgp⟩

/-- The id-10 folder row of `treeSt`. -/
def rootRowW : FolderRec :=
  { id := 10, name := "A", owner := 0, parent_folder := none,
    is_deleted := false, deleted_at := none }

/-- **C3** (corrected).  Cascade completeness with per-node parents, on
a *fully non-deleted* subtree `T` with duplicate-free ids whose items no
existing trash row references: `move_folder_to_trash` succeeds, flips
exactly `T`'s folders and files to deleted (`treeTrashed`), and creates
exactly `T.folderIds.length + T.fileIds.length` new `Trash` rows, each
recording the item's immediate parent (folder rows carry the folder's
own `parent_folder`, file rows the containing folder) as read from the
database at deletion time; `restore_folder` on the resulting state then
succeeds, flips exactly those items back (`is_deleted := false`,
`deleted_at := none`) and leaves the trash table exactly as before the
folder was trashed.  The original claim (without the non-deleted /
clean-trash restriction) is refuted by `c3_counterexample`: when the
subtree contains an already-trashed child folder, restore flips that
child too and deletes its pre-existing row, reversing more items and
rows than the trashing created. -/
theorem c3_cascade_roundtrip (u now : Nat) (T : FTree) (st : DB) (f0 : FolderRec)
    (ht : treeOk u st T = true)
    (hndD : T.folderIds.Nodup)
    (hndE : T.fileIds.Nodup)
    (hf0 : st.folders.find? (fun f => f.id == T.rootId) = some f0)
    (hclean : ∀ t ∈ st.trash, refsSubtree u T.folderIds T.fileIds t = false) :
    move_folder_to_trash u T.rootId now st
      = (treeTrashed u now T f0.parent_folder st, OpResult.ok)
    ∧ (treeTrashed u now T f0.parent_folder st).trash
        = st.trash ++ expRecsT u now T f0.parent_folder
    ∧ (expRecsT u now T f0.parent_folder).length
        = T.folderIds.length + T.fileIds.length
    ∧ (∀ r ∈ expRecsT u now T f0.parent_folder,
        (∀ j, r.folder = some j →
          ∃ g ∈ st.folders, g.id = j ∧ r.original_folder = g.parent_folder) ∧
        (∀ x, r.file = some x →
          ∃ fr ∈ st.files, fr.id = x ∧ r.original_folder = fr.folder))
    ∧ restore_folder u T.rootId (treeTrashed u now T f0.parent_folder st)
        = ((⟨unmarkFilesByIds T.fileIds st.files, unmarkFoldersByIds T.folderIds st.folders,
             st.trash, st.profiles, st.blobs⟩ : DB), OpResult.ok) :=
  ⟨move_folder_to_trash_eq u now T st f0 ht hndD hndE hf0, rfl,
    expRecsT_length u now T f0.parent_folder,
    expRecsT_parents u now T st f0 ht hf0,
    restore_folder_eq u now T st f0 ht hndD hndE hf0 hclean⟩

/-- **C3** counterexample to the unrestricted claim: trash child folder
11, then trash its parent 10.  At that point 10's subtree contains
exactly one non-deleted item (folder 10 itself; no files), and trashing
10 indeed creates exactly one new `Trash` row (1 → 2 rows).  But
restoring 10 then deletes *two* rows (2 → 0) and flips folder 11 back
as well — it reverses more rows and items than the trashing created,
contradicting the claim's "restoring F reverses exactly those N+M
records". -/
theorem c3_counterexample :
    ((runOps 0 100 [Op.createFolder 10 "A" none, Op.createFolder 11 "B" (some 10),
        Op.trashFolder 11] baseSt).folders.filter (fun f => !f.is_deleted)).map
      (fun f => f.id) = [10]
    ∧ (runOps 0 100 [Op.createFolder 10 "A" none, Op.createFolder 11 "B" (some 10),
        Op.trashFolder 11] baseSt).files = []
    ∧ (runOps 0 100 [Op.createFolder 10 "A" none, Op.createFolder 11 "B" (some 10),
        Op.trashFolder 11] baseSt).trash.length = 1
    ∧ (runOps 0 100 [Op.createFolder 10 "A" none, Op.createFolder 11 "B" (some 10),
        Op.trashFolder 11, Op.trashFolder 10] baseSt).trash.length = 2
    ∧ (runOps 0 100 [Op.createFolder 10 "A" none, Op.createFolder 11 "B" (some 10),
        Op.trashFolder 11, Op.trashFolder 10, Op.restoreFolder 10] baseSt).trash.length = 0
    ∧ ((runOps 0 100 [Op.createFolder 10 "A" none, Op.createFolder 11 "B" (some 10),
        Op.trashFolder 11, Op.trashFolder 10, Op.restoreFolder 10] baseSt).folders.filter
          (fun f => f.is_deleted)) = [] := by
  decide

/-- Witness for `c3_cascade_roundtrip`: the two-folder/two-file subtree
`treeW` in `treeSt`, trashed at time 100 and restored. -/
theorem c3_cascade_roundtrip_witness :
    (treeOk 0 treeSt treeW = true
      ∧ treeW.folderIds.Nodup
      ∧ treeW.fileIds.Nodup
      ∧ treeSt.folders.find? (fun f => f.id == treeW.rootId) = some rootRowW
      ∧ (∀ t ∈ treeSt.trash, refsSubtree 0 treeW.folderIds treeW.fileIds t = false))
    ∧ (move_folder_to_trash 0 treeW.rootId 100 treeSt
        = (treeTrashed 0 100 treeW rootRowW.parent_folder treeSt, OpResult.ok)
      ∧ (treeTrashed 0 100 treeW rootRowW.parent_folder treeSt).trash
          = treeSt.trash ++ expRecsT 0 100 treeW rootRowW.parent_folder
      ∧ (expRecsT 0 100 treeW rootRowW.parent_folder).length
          = treeW.folderIds.length + treeW.fileIds.length
      ∧ (∀ r ∈ expRecsT 0 100 treeW rootRowW.parent_folder,
          (∀ j, r.folder = some j →
            ∃ g ∈ treeSt.folders, g.id = j ∧ r.original_folder = g.parent_folder) ∧
          (∀ x, r.file = some x →
            ∃ fr ∈ treeSt.files, fr.id = x ∧ r.original_folder = fr.folder))
      ∧ restore_folder 0 treeW.rootId (treeTrashed 0 100 treeW rootRowW.parent_folder treeSt)
          = ((⟨unmarkFilesByIds treeW.fileIds treeSt.files,
               unmarkFoldersByIds treeW.folderIds treeSt.folders,
               treeSt.trash, treeSt.profiles, treeSt.blobs⟩ : DB), OpResult.ok)) :=
  ⟨⟨by decide, by decide, by decide, by decide, by decide⟩,
    c3_cascade_roundtrip 0 100 treeW treeSt rootRowW (by decide) (by decide) (by decide)
      (by decide) (by decide)⟩
